import Mathlib
/-!
# Verification of the schedule optimizer (`backend/scraper/optimizer.py`)

This file is a shallow embedding of the schedule-optimizer module: the
time-interval model, the catalog normalizer, the requirement resolver, the
conflict-pruned combination search, the scoring model and the ranking/output
assembly, together with theorems checking the specification's claims
against these definitions.

Modelling conventions:
* Python `float` values are modelled as exact rationals (`ℚ`); the one
  irrational ingredient of the scoring formula, `statistics.stdev`, is
  tracked symbolically (see `scoreParts` below), so every definition stays
  executable.
* Python `dict`s (insertion-ordered) are modelled as association lists with
  Python's update semantics (`dset` keeps the position of an existing key).
* A raised exception in fallible code is modelled with `Option`/`Except`.
* `int(s)` on a time string is modelled for unsigned decimal strings via
  `String.toNat?`; malformed strings map to `none` (the `ValueError` path).
-/
/-- `DAY_NAMES_LONG` from the source, as a function on day indices 0–4. -/
def DAY_NAMES_LONG (d : Fin 5) : String :=
  (["Monday", "Tuesday", "Wednesday", "Thursday", "Friday"] : List String).get
    ⟨d.val, d.isLt⟩
/-- `hhmm_to_minutes`: convert `"HHMM"` to minutes since midnight.
`none` models the `ValueError` raised by `int` on a malformed string. -/
def hhmm_to_minutes (hhmm : String) : Option Nat :=
  match (hhmm.take 2).toNat?, (hhmm.drop 2).toNat? with
  | some h, some m => some (h * 60 + m)
  | _, _ => none
/-- Two-digit zero padding, modelling Python's `{:02d}` for a natural number. -/
def pad2 (n : Nat) : String :=
  if n < 10 then "0" ++ toString n else toString n
/-- `minutes_to_hhmm`: convert minutes since midnight to `"HHMM"`. -/
def minutes_to_hhmm (minutes : Nat) : String :=
  pad2 (minutes / 60) ++ pad2 (minutes % 60)
/-- `MeetingTime`: normalized meeting time for a single day
(day index 0 = Monday … 4 = Friday, times in minutes since midnight). -/
structure MeetingTime where
  day : Fin 5
  begin_time : Nat
  end_time : Nat
deriving DecidableEq
/-- `MeetingTime.overlaps_with` from the source:
`False` if the days differ, otherwise
`not (self.end_time <= other.begin_time or self.begin_time >= other.end_time)`. -/
def MeetingTime.overlaps_with (a b : MeetingTime) : Bool :=
  if a.day ≠ b.day then false
  else decide (¬ (a.end_time ≤ b.begin_time ∨ a.begin_time ≥ b.end_time))
/-- A value fed to `_safe_float`: a numeric JSON value, a missing value
(Python `None`, raising `TypeError` in `float`), or a non-numeric value
(raising `ValueError`). -/
inductive PyNum where
  | missing : PyNum
  | num : ℚ → PyNum
  | nonNumeric : PyNum
deriving DecidableEq
/-- `_safe_float`: `float(value)` with exceptions mapped to the default. -/
def _safe_float (value : PyNum) (default : ℚ := 0) : ℚ :=
  match value with
  | .num q => q
  | _ => default
/-- The `meetingTime` sub-dictionary of a raw `meetingsFaculty` block:
begin/end time strings (absent key modelled as `none`), the five weekday
flags, and the `creditHourSession` value. -/
structure RawMeetingTime where
  beginTime : Option String
  endTime : Option String
  monday : Bool
  tuesday : Bool
  wednesday : Bool
  thursday : Bool
  friday : Bool
  creditHourSession : PyNum
deriving DecidableEq
/-- A raw `meetingsFaculty` block; its `meetingTime` entry may be absent. -/
structure RawFacultyBlock where
  meetingTime : Option RawMeetingTime
deriving DecidableEq
/-- A raw Banner section record, with exactly the fields the optimizer
reads.  `none` models an absent key.  The entries of `meetingsFaculty` may
themselves be `None` in the payload, hence `Option RawFacultyBlock`.
This pipeline type identifies a block whose `meetingTime` key is present
with an explicit JSON `null` with one whose key is absent; the two are
interchangeable for `extract_meeting_times` (the source null-guards the
field with `or {}`), but not for the credit fallback, which raises on the
null shape — that full shape is modelled by `PayloadSection` below, and
`compute_section_credits_restriction` shows the pipeline's total credit
extraction is the payload-level one restricted to null-free records. -/
structure RawSection where
  seatsAvailable : Option Int
  subjectCourse : Option String
  subject : Option String
  courseTitle : Option String
  creditHours : PyNum
  courseReferenceNumber : String
  meetingsFaculty : List (Option RawFacultyBlock)
deriving DecidableEq
/-- The meeting times contributed by one `meetingsFaculty` block:
`mt = (faculty_block or {}).get("meetingTime") or {}`, skip when the begin
or end time is falsy (absent or empty), when parsing raises `ValueError`,
or when `begin_minutes >= end_minutes`; otherwise one `MeetingTime` per set
day flag, in `MEETING_KEYS` order. -/
def blockMeetingTimes (fb : Option RawFacultyBlock) : List MeetingTime :=
  match fb.bind (fun b => b.meetingTime) with
  | none => []
  | some mt =>
    if mt.beginTime.getD "" = "" ∨ mt.endTime.getD "" = "" then []
    else
      match hhmm_to_minutes (mt.beginTime.getD "") with
      | none => []
      | some b =>
        match hhmm_to_minutes (mt.endTime.getD "") with
        | none => []
        | some e =>
          if b ≥ e then []
          else
            (if mt.monday then [⟨0, b, e⟩] else []) ++
            (if mt.tuesday then [⟨1, b, e⟩] else []) ++
            (if mt.wednesday then [⟨2, b, e⟩] else []) ++
            (if mt.thursday then [⟨3, b, e⟩] else []) ++
            (if mt.friday then [⟨4, b, e⟩] else [])
/-- `extract_meeting_times`: extract and validate meeting times from a raw
section record. -/
def extract_meeting_times (record : RawSection) : List MeetingTime :=
  record.meetingsFaculty.flatMap blockMeetingTimes
/-- The fallback sum in `compute_section_credits`:
`sum(_safe_float((meeting or {}).get("meetingTime", {}).get("creditHourSession")) ...)`,
over the null-free pipeline records.  The faithful, fallible version over
the full payload shape is `sessionCreditSumPayload` (a block with an
explicitly null `meetingTime` raises `AttributeError` there). -/
def sessionCreditSum (record : RawSection) : ℚ :=
  (record.meetingsFaculty.map fun m =>
    _safe_float (match m.bind (fun b => b.meetingTime) with
      | some mt => mt.creditHourSession
      | none => .missing)).sum
/-- `compute_section_credits`: prefer the section's `creditHours`,
otherwise (`if credits:` — i.e. whenever that value is zero, Python
falsiness) fall back to the `creditHourSession` sum. -/
def compute_section_credits (record : RawSection) : ℚ :=
  let credits := _safe_float record.creditHours
  if credits ≠ 0 then credits else sessionCreditSum record

/-- The three JSON shapes of a block's `meetingTime` entry: key absent,
key present with an explicit `null`, or a meeting-time object.  The
distinction matters to exactly one reader: the credit fallback's
`.get("meetingTime", {})` default covers only the absent case, so an
explicit `null` reaches `None.get("creditHourSession")` and raises
`AttributeError`, while `extract_meeting_times` null-guards the same
field with `or {}`. -/
inductive MeetingTimeField where
  | absent : MeetingTimeField
  | explicitNull : MeetingTimeField
  | val : RawMeetingTime → MeetingTimeField
deriving DecidableEq

/-- A raw `meetingsFaculty` block over the full JSON payload shape. -/
structure PayloadFacultyBlock where
  meetingTime : MeetingTimeField
deriving DecidableEq

/-- A raw Banner section record over the full JSON payload shape,
distinguishing an explicitly null `meetingTime` key from an absent one. -/
structure PayloadSection where
  seatsAvailable : Option Int
  subjectCourse : Option String
  subject : Option String
  courseTitle : Option String
  creditHours : PyNum
  courseReferenceNumber : String
  meetingsFaculty : List (Option PayloadFacultyBlock)
deriving DecidableEq

/-- One block's contribution to the credit fallback sum:
`_safe_float((meeting or {}).get("meetingTime", {}).get("creditHourSession"))`.
A falsy block or an absent `meetingTime` key contributes
`_safe_float(None) = 0`; `none` models the `AttributeError` raised by
`None.get("creditHourSession")` when the key is present but null. -/
def sessionCreditTerm : Option PayloadFacultyBlock → Option ℚ
  | none => some (_safe_float .missing)
  | some b =>
    match b.meetingTime with
    | .absent => some (_safe_float .missing)
    | .explicitNull => none
    | .val mt => some (_safe_float mt.creditHourSession)

/-- The credit fallback sum over the full payload shape; `none` models the
`AttributeError` escaping from the generator (blocks are consumed left to
right, and the first explicitly null `meetingTime` raises; the exception
occurs while evaluating `_safe_float`'s argument, so its `try` cannot
catch it). -/
def sessionCreditSumPayload (record : PayloadSection) : Option ℚ :=
  (record.meetingsFaculty.mapM sessionCreditTerm).map fun l => l.sum

/-- `compute_section_credits` over the full payload shape: the fallback —
and with it the raising path — is evaluated only when the explicit
`creditHours` value is falsy. -/
def compute_section_creditsPayload (record : PayloadSection) : Option ℚ :=
  let credits := _safe_float record.creditHours
  if credits ≠ 0 then some credits else sessionCreditSumPayload record

/-- Embed a pipeline record (where a null `meetingTime` is identified with
an absent key) into the full payload shape. -/
def RawSection.toPayload (record : RawSection) : PayloadSection :=
  { seatsAvailable := record.seatsAvailable
    subjectCourse := record.subjectCourse
    subject := record.subject
    courseTitle := record.courseTitle
    creditHours := record.creditHours
    courseReferenceNumber := record.courseReferenceNumber
    meetingsFaculty := record.meetingsFaculty.map fun ob => ob.map fun b =>
      { meetingTime :=
          match b.meetingTime with
          | none => MeetingTimeField.absent
          | some mt => MeetingTimeField.val mt } }
/-- `Section`: one offered instance of a course.  The Python back-reference
`Section.course` is only ever used for its `subject_course` and `title`
labels, so the model stores those two (immutable after creation) fields
directly, breaking the reference cycle. -/
structure Section where
  meeting_times : List MeetingTime
  course_subject_course : Option String
  course_title : String
  crn : String
deriving DecidableEq
/-- `Section.conflicts_with`: any pair of meeting times overlaps. -/
def Section.conflicts_with (a other : Section) : Bool :=
  a.meeting_times.any fun mt1 => other.meeting_times.any fun mt2 => mt1.overlaps_with mt2
/-- `Course`: subject+number code, title, credit value and its sections.
The `subject_course` key is an `Option` because the HASS dictionary can be
keyed (and its `Course` created) with a record whose `subjectCourse` field
is absent. -/
structure Course where
  subject_course : Option String
  title : String
  credits : ℚ
  sections : List Section
deriving DecidableEq
/-- `Course.add_section`: drop the record when it yields no valid meeting
times, otherwise append a `Section` holding them. -/
def Course.add_section (c : Course) (record : RawSection) : Course :=
  let meeting_times := extract_meeting_times record
  if meeting_times.isEmpty then c
  else
    { c with sections := c.sections ++
        [{ meeting_times := meeting_times,
           course_subject_course := c.subject_course,
           course_title := c.title,
           crn := record.courseReferenceNumber.trim }] }
/-- `CourseCombo`: one course slate. -/
structure CourseCombo where
  courses : List Course
deriving DecidableEq
/-- The loop body of `generate_section_combinations`: starting from the
current frontier `combos`, process the remaining courses in slate order,
extending each surviving partial list with each conflict-free section and
returning `[]` as soon as a course has no sections or the frontier
empties. -/
def genSectionCombos (combos : List (List Section)) : List Course → List (List Section)
  | [] => combos
  | course :: rest =>
    if course.sections.isEmpty then []
    else
      let new_combos := course.sections.flatMap fun sect =>
        combos.filterMap fun combo =>
          if combo.all (fun existing => ! sect.conflicts_with existing) then
            some (combo ++ [sect])
          else none
      if new_combos.isEmpty then [] else genSectionCombos new_combos rest
/-- `CourseCombo.generate_section_combinations`: all conflict-free section
selections, built by incremental pruning from the single empty partial
list. -/
def CourseCombo.generate_section_combinations (cc : CourseCombo) : List (List Section) :=
  genSectionCombos [[]] cc.courses
/-- `ScoringWeights`, with the source's default constants
(floats idealized as exact rationals: `0.2 = 1/5`, `0.05 = 1/20`). -/
structure ScoringWeights where
  early_class_threshold : Int := 600
  late_class_threshold : Int := 1080
  early_late_penalty_per_min : ℚ := 1/5
  active_day_ideal_range : Int × Int := (3, 4)
  active_day_bonus : ℚ := 100
  active_day_penalty_per_day : ℚ := 50
  distribution_weight : ℚ := 20
  idle_time_penalty : ℚ := 1/20
  span_penalty : ℚ := 1/20
/-- Decides `c ≤ √v` for `0 ≤ v`, by sign analysis and squaring. -/
def ratLeSqrt (c v : ℚ) : Bool :=
  decide (c ≤ 0) || decide (c ^ 2 ≤ v)
/-- Decides `√v ≤ c` for `0 ≤ v`, by sign analysis and squaring. -/
def sqrtLeRat (v c : ℚ) : Bool :=
  decide (0 ≤ c) && decide (v ≤ c ^ 2)
/-- `⌊a + √v⌋` for `0 ≤ v`, computed exactly: `√v` lies in
`[s, s + 1)` for `s = Nat.sqrt ⌊v⌋`, leaving two candidate floors. -/
def floorAddSqrt (a v : ℚ) : Int :=
  let s : Int := (Nat.sqrt (Int.toNat ⌊v⌋) : Int)
  let n := ⌊a⌋ + s
  if ratLeSqrt ((n : ℚ) + 1 - a) v then n + 1 else n
/-- `⌊a - √v⌋` for `0 ≤ v`, computed exactly. -/
def floorSubSqrt (a v : ℚ) : Int :=
  let s : Int := (Nat.sqrt (Int.toNat ⌊v⌋) : Int)
  let m := ⌊a⌋ - s - 1
  if sqrtLeRat v (a - ((m : ℚ) + 1)) then m + 1 else m
/-- `⌊a - u·√v⌋` for `0 ≤ v`, reducing to the previous two via
`u·√v = sign u · √(u²·v)`. -/
def floorSubMulSqrt (a u v : ℚ) : Int :=
  if 0 ≤ u then floorSubSqrt a (u ^ 2 * v) else floorAddSqrt a (u ^ 2 * v)
/-- Decides `u·√v < d` for `0 ≤ v`. -/
def mulSqrtLtRat (u v d : ℚ) : Bool :=
  if 0 ≤ u then decide (0 < d) && decide (u ^ 2 * v < d ^ 2)
  else decide (0 < d) || decide (d ^ 2 < u ^ 2 * v)
/-- Decides `u·√v = d` for `0 ≤ v`. -/
def mulSqrtEqRat (u v d : ℚ) : Bool :=
  if 0 ≤ u then decide (0 ≤ d) && decide (d ^ 2 = u ^ 2 * v)
  else decide (d ≤ 0) && decide (d ^ 2 = u ^ 2 * v)
/-- Round `a - u·√v` to the nearest integer, ties to even — the exact
value of Python's `round` on the real number `a - u·√v`. -/
def roundHalfEvenSub (a u v : ℚ) : Int :=
  let n := floorSubMulSqrt a u v
  let d := a - (n : ℚ) - 1/2
  if mulSqrtLtRat u v d then n + 1
  else if mulSqrtEqRat u v d then (if n % 2 = 0 then n else n + 1)
  else n
/-- `round(x, 2)` for `x = a - u·√v`: round `100·x` half-to-even, then
divide by `100`. -/
def roundTo2Sub (a u v : ℚ) : ℚ :=
  (roundHalfEvenSub (100 * a) (100 * u) v : ℚ) / 100
/-- `statistics.stdev` squared: the sample variance `Σ(x - x̄)² / (n - 1)`. -/
def sampleVariance (l : List ℚ) : ℚ :=
  let n : ℚ := l.length
  let m : ℚ := l.sum / n
  (l.map fun x => (x - m) ^ 2).sum / (n - 1)
/-- A Python float score: finite (a rational) or `float("-inf")`. -/
inductive PyFloat where
  | negInf : PyFloat
  | fin : ℚ → PyFloat
deriving DecidableEq
/-- The `<=` comparison on scores. -/
def PyFloat.le : PyFloat → PyFloat → Bool
  | .negInf, _ => true
  | .fin _, .negInf => false
  | .fin a, .fin b => decide (a ≤ b)
/-- A scoring extension hook: a Python callable receiving the candidate and
returning a float delta; `none` models a raised exception. -/
def PenaltyHook : Type := List Section → Option ℚ
/-- The numeric content of `evaluate_schedule` on a non-empty schedule,
as a triple `(a, u, v)` denoting the real raw score `a - u·√v`:
`a` collects every rational term (time-of-day penalties, active-day
shaping, idle time, span, hook deltas), and `u·√v` is the subtracted
`stdev(day_counts) * distribution_weight` term (`u = 0` when at most one
day is active, matching the source's guard). -/
def scoreParts (schedule : List Section) (weights : ScoringWeights)
    (penalties : List PenaltyHook) : ℚ × ℚ × ℚ :=
  let days : List (List (Int × Int)) := (List.range 5).map fun d =>
    schedule.flatMap fun sec => sec.meeting_times.filterMap fun mt =>
      if mt.day.val = d then some ((mt.begin_time : Int), (mt.end_time : Int)) else none
  let earlyLate : ℚ := (schedule.flatMap fun sec => sec.meeting_times.map fun mt =>
    (if (mt.begin_time : Int) < weights.early_class_threshold then
      ((weights.early_class_threshold - (mt.begin_time : Int) : Int) : ℚ) *
        weights.early_late_penalty_per_min
     else 0) +
    (if (mt.end_time : Int) > weights.late_class_threshold then
      (((mt.end_time : Int) - weights.late_class_threshold : Int) : ℚ) *
        weights.early_late_penalty_per_min
     else 0)).sum
  let day_counts : List Nat := (days.filter fun d => ! d.isEmpty).map List.length
  let active_days : Nat := day_counts.length
  let shaping : ℚ :=
    if weights.active_day_ideal_range.1 ≤ (active_days : Int) ∧
        (active_days : Int) ≤ weights.active_day_ideal_range.2 then
      weights.active_day_bonus
    else
      -((((active_days : Int) - weights.active_day_ideal_range.2).natAbs : ℚ) *
        weights.active_day_penalty_per_day)
  let u : ℚ := if 1 < day_counts.length then weights.distribution_weight else 0
  let v : ℚ := if 1 < day_counts.length then
      sampleVariance (day_counts.map (fun n => ((n : ℕ) : ℚ)))
    else 0
  let nonemptyDays := days.filter fun d => ! d.isEmpty
  let idleSum : ℚ := (nonemptyDays.map fun dts =>
    let start := (dts.map Prod.fst).min?.getD 0
    let stop := (dts.map Prod.snd).max?.getD 0
    let total := (dts.map fun t => t.2 - t.1).sum
    (((stop - start) - total : Int) : ℚ)).sum
  let spans : List Int := nonemptyDays.map fun dts =>
    (dts.map Prod.snd).max?.getD 0 - (dts.map Prod.fst).min?.getD 0
  let spanTerm : ℚ :=
    if spans.isEmpty then 0
    else ((spans.map (fun z => ((z : ℤ) : ℚ))).sum / (spans.length : ℚ)) * weights.span_penalty
  let hookSum : ℚ := (penalties.map fun p => (p schedule).getD 0).sum
  (0 - earlyLate + shaping - idleSum * weights.idle_time_penalty - spanTerm + hookSum, u, v)
/-- `evaluate_schedule`: `float("-inf")` on an empty schedule, otherwise
the raw score rounded to 2 decimal places. -/
def evaluate_schedule (schedule : List Section) (weights : ScoringWeights)
    (penalties : List PenaltyHook := []) : PyFloat :=
  if schedule.isEmpty then .negInf
  else
    match scoreParts schedule weights penalties with
    | (a, u, v) => .fin (roundTo2Sub a u v)
/-- `DEFAULT_REQUIREMENTS_SPEC` from the source. -/
def DEFAULT_REQUIREMENTS_SPEC : List (String × List (List String)) :=
  [("cs_requirement", [["CSCI1200"]]),
   ("math_requirement", [["MATH1020"]]),
   ("biol_requirement", [["BIOL1010", "BIOL1015"], ["BIOL1010", "BIOL1016"]])]
/-- `OptimizationOptions`, with the source's defaults.  The frozensets
`include_subjects`/`exclude_subjects` are modelled as optional lists (only
membership and non-emptiness are ever used). -/
structure OptimizationOptions where
  requirements_spec : List (String × List (List String)) := DEFAULT_REQUIREMENTS_SPEC
  hass_subject : String := "INQR"
  max_schedules : Int := 25
  scoring : ScoringWeights := {}
  min_seats_available : Int := 1
  include_subjects : Option (List String) := none
  exclude_subjects : Option (List String) := none
  penalties : List PenaltyHook := []
/-- `_resolve_options`: merge explicit keyword arguments over the base
options.  Falsiness is modelled exactly: an empty `requirements_spec` dict
or an empty `hass_subject` string falls back to the base value (`or`),
while `max_schedules`/`min_seats_available`/`include`/`exclude`/`penalties`
use `is not None` checks. -/
def _resolve_options (options : Option OptimizationOptions)
    (requirements_spec : Option (List (String × List (List String))))
    (hass_subject : Option String) (max_schedules : Option Int)
    (scoring : Option ScoringWeights) (min_seats_available : Option Int)
    (include_subjects : Option (List String)) (exclude_subjects : Option (List String))
    (penalties : Option (List PenaltyHook)) : OptimizationOptions :=
  let base := options.getD {}
  { requirements_spec :=
      match requirements_spec with
      | some rs => if rs.isEmpty then base.requirements_spec else rs
      | none => base.requirements_spec
    hass_subject :=
      match hass_subject with
      | some h => if h = "" then base.hass_subject else h
      | none => base.hass_subject
    max_schedules := max_schedules.getD base.max_schedules
    scoring := scoring.getD base.scoring
    min_seats_available := min_seats_available.getD base.min_seats_available
    include_subjects :=
      match include_subjects with
      | some l => some l
      | none => base.include_subjects
    exclude_subjects :=
      match exclude_subjects with
      | some l => some l
      | none => base.exclude_subjects
    penalties := penalties.getD base.penalties }
/-- Python dict lookup on an association list. -/
def dget {κ β : Type} [DecidableEq κ] (d : List (κ × β)) (k : κ) : Option β :=
  (d.find? fun kv => kv.1 = k).map fun kv => kv.2
/-- Python dict assignment on an association list: an existing key keeps
its position (insertion order), a new key is appended. -/
def dset {κ β : Type} [DecidableEq κ] (d : List (κ × β)) (k : κ) (v : β) : List (κ × β) :=
  if d.any fun kv => kv.1 = k then
    d.map fun kv => if kv.1 = k then (k, v) else kv
  else d ++ [(k, v)]
/-- `subject in frozenset_of_strings` for a possibly-absent subject:
Python's `None` is never a member of a set of strings. -/
def subjectMem (s : Option String) (l : List String) : Bool :=
  match s with
  | some x => l.contains x
  | none => false
/-- The state threaded through the record loop of `optimize_courses`:
the requirement course dictionary and the HASS course dictionary. -/
structure BuildState where
  courses_dict : List (String × Option Course)
  hass_dict : List (Option String × Course)
/-- The initial `courses_dict`: one `None` entry per course code appearing
in the requirements spec, in first-encounter order (requirement order,
then group order, then code order), later duplicates ignored. -/
def initCoursesDict (spec : List (String × List (List String))) :
    List (String × Option Course) :=
  (spec.flatMap fun kv => kv.2.flatMap fun g => g).foldl
    (fun acc code => if acc.any fun kv => kv.1 = code then acc else acc ++ [(code, none)])
    []
/-- The body of the record loop of `optimize_courses`: seat filtering,
include/exclude subject filtering (empty frozensets are falsy and disable
the filter), then section accrual into the requirement and HASS course
dictionaries. -/
def processRecord (opts : OptimizationOptions) (st : BuildState)
    (record : RawSection) : BuildState :=
  if record.seatsAvailable.getD 0 < opts.min_seats_available then st
  else
    let subject_course := record.subjectCourse
    let subject := record.subject
    let title := record.courseTitle.getD ""
    let credits := compute_section_credits record
    let includeSkip : Bool :=
      match opts.include_subjects with
      | some l => ! l.isEmpty && ! subjectMem subject l
      | none => false
    let excludeSkip : Bool :=
      match opts.exclude_subjects with
      | some l => ! l.isEmpty && subjectMem subject l
      | none => false
    if includeSkip then st
    else if excludeSkip then st
    else
      let cd' :=
        match subject_course with
        | some sc =>
          match dget st.courses_dict sc with
          | some none =>
            dset st.courses_dict sc
              (some ((Course.mk (some sc) title credits []).add_section record))
          | some (some c) => dset st.courses_dict sc (some (c.add_section record))
          | none => st.courses_dict
        | none => st.courses_dict
      let hd' :=
        if subject = some opts.hass_subject then
          match dget st.hass_dict subject_course with
          | none =>
            dset st.hass_dict subject_course
              ((Course.mk subject_course title credits []).add_section record)
          | some c => dset st.hass_dict subject_course (c.add_section record)
        else st.hass_dict
      ⟨cd', hd'⟩
/-- Build the two course dictionaries from the catalog. -/
def buildDicts (courses_data : List RawSection) (opts : OptimizationOptions) : BuildState :=
  courses_data.foldl (processRecord opts) ⟨initCoursesDict opts.requirements_spec, []⟩
/-- Concretize the requirement spec against the course dictionary: a group
survives iff every code resolves to a created course with at least one
section; a requirement keeps its surviving groups in order. -/
def resolveRequirements (spec : List (String × List (List String)))
    (cd : List (String × Option Course)) : List (String × List (List Course)) :=
  spec.map fun kv => (kv.1, kv.2.filterMap fun group =>
    let concrete := group.filterMap fun code => (dget cd code).bind id
    if concrete.length = group.length ∧ concrete.all fun c => ! c.sections.isEmpty then
      some concrete
    else none)
/-- The synthesized HASS elective groups: one singleton group per HASS
course that has at least one section, in dictionary insertion order. -/
def hassGroups (hd : List (Option String × Course)) : List (List Course) :=
  ((hd.map fun kv => kv.2).filter fun c => ! c.sections.isEmpty).map fun c => [c]
/-- The full requirements table: the concretized named requirements with
the `"hass_electives"` entry assigned on top (dict update semantics). -/
def requirementsTable (courses_data : List RawSection) (opts : OptimizationOptions) :
    List (String × List (List Course)) :=
  let st := buildDicts courses_data opts
  dset (resolveRequirements opts.requirements_spec st.courses_dict)
    "hass_electives" (hassGroups st.hass_dict)
/-- The course-combination loop: choose one group per requirement,
Cartesian-expanding in requirement order; `none` models the early
`return {}` taken when a requirement has no concrete groups. -/
def buildCombos : List (List (List Course)) → List (List Course) →
    Option (List (List Course))
  | [], acc => some acc
  | groups :: rest, acc =>
    if groups.isEmpty then none
    else buildCombos rest (groups.flatMap fun group => acc.map fun combo => combo ++ group)
/-- All valid (conflict-free) schedules across the course slates, in
encounter order; `none` when some requirement was unfulfillable. -/
def validSchedules (courses_data : List RawSection) (opts : OptimizationOptions) :
    Option (List (List Section)) :=
  (buildCombos ((requirementsTable courses_data opts).map fun kv => kv.2) [[]]).map
    fun combos => combos.flatMap fun c => (CourseCombo.mk c).generate_section_combinations
/-- Each valid schedule paired with its score, in encounter order. -/
def scoredSchedules (courses_data : List RawSection) (opts : OptimizationOptions) :
    Option (List (List Section × PyFloat)) :=
  (validSchedules courses_data opts).map fun vs =>
    vs.map fun s => (s, evaluate_schedule s opts.scoring opts.penalties)
/-- The sort relation of `scored.sort(key=lambda x: x["score"], reverse=True)`:
`x` may precede `y` iff `x`'s score is at least `y`'s. -/
def schedGe (x y : List Section × PyFloat) : Prop :=
  PyFloat.le y.2 x.2 = true
instance : DecidableRel schedGe := fun x y => instDecidableEqBool (PyFloat.le y.2 x.2) true
instance : IsTotal (List Section × PyFloat) schedGe :=
  ⟨fun x y => by
    unfold schedGe
    rcases x with ⟨lx, sx⟩
    rcases y with ⟨ly, sy⟩
    dsimp only
    cases sy <;> cases sx <;> simp [PyFloat.le] <;> exact le_total _ _⟩
instance : IsTrans (List Section × PyFloat) schedGe :=
  ⟨fun a b c h1 h2 => by
    unfold schedGe at h1 h2 ⊢
    rcases a with ⟨la, sa⟩
    rcases b with ⟨lb, sb⟩
    rcases c with ⟨lc, sc⟩
    dsimp only at h1 h2 ⊢
    cases sa <;> cases sb <;> cases sc <;> simp_all [PyFloat.le] <;>
      exact le_trans h2 h1⟩
/-- The serialized form of one meeting time in the output. -/
structure MeetingTimeOut where
  day : String
  begin_time : String
  end_time : String
deriving DecidableEq
/-- The serialized form of one section in the output. -/
structure SectionOut where
  crn : String
  subject_course : Option String
  title : String
  meeting_times : List MeetingTimeOut
deriving DecidableEq
/-- One output entry: the schedule's score and its serialized sections. -/
structure ScheduleOut where
  score : PyFloat
  sections : List SectionOut
deriving DecidableEq
/-- Serialize one scored schedule into its transport-neutral output form. -/
def serializeEntry (entry : List Section × PyFloat) : ScheduleOut :=
  { score := entry.2,
    sections := entry.1.map fun sec =>
      { crn := sec.crn,
        subject_course := sec.course_subject_course,
        title := sec.course_title,
        meeting_times := sec.meeting_times.map fun mt =>
          { day := DAY_NAMES_LONG mt.day,
            begin_time := minutes_to_hhmm mt.begin_time,
            end_time := minutes_to_hhmm mt.end_time } } }
/-- Label the truncated, sorted entries `"Schedule 1"`, `"Schedule 2"`, …
(`enumerate(..., start=1)`). -/
def labelEntries (entries : List (List Section × PyFloat)) :
    List (String × ScheduleOut) :=
  entries.enum.map fun p => ("Schedule " ++ toString (p.1 + 1), serializeEntry p.2)
/-- The sorted scored schedules (score-descending, stable).  Python's
`list.sort` is stable; for the total preorder `schedGe` the stable result
is unique, and is modelled here by the stable `List.insertionSort`. -/
def sortedSchedules (courses_data : List RawSection) (opts : OptimizationOptions) :
    Option (List (List Section × PyFloat)) :=
  (scoredSchedules courses_data opts).map fun scored => scored.insertionSort schedGe
/-- `optimize_courses`: resolve options, fail fast on a non-positive
`max_schedules`, build the course dictionaries, concretize requirements,
expand course combinations (returning the empty mapping as soon as a
requirement is unfulfillable), enumerate conflict-free schedules, score,
stable-sort descending, truncate and label. -/
def optimize_courses (courses_data : List RawSection)
    (options : Option OptimizationOptions := none)
    (requirements_spec : Option (List (String × List (List String))) := none)
    (hass_subject : Option String := none) (max_schedules : Option Int := none)
    (scoring : Option ScoringWeights := none) (min_seats_available : Option Int := none)
    (include_subjects : Option (List String) := none)
    (exclude_subjects : Option (List String) := none)
    (penalties : Option (List PenaltyHook) := none) :
    Except String (List (String × ScheduleOut)) :=
  let opts := _resolve_options options requirements_spec hass_subject max_schedules
    scoring min_seats_available include_subjects exclude_subjects penalties
  if opts.max_schedules ≤ 0 then .error ("max_schedules must be positive")
  else
    match validSchedules courses_data opts with
    | none => .ok []
    | some valid =>
      if valid.isEmpty then .ok []
      else
        let scored := valid.map fun s => (s, evaluate_schedule s opts.scoring opts.penalties)
        let sorted := scored.insertionSort schedGe
        .ok (labelEntries (sorted.take opts.max_schedules.toNat))
/-! ## Claim theorems -/
/-- The conflict-freedom relation checked by the incremental search: the
later-chosen section does not conflict with the earlier one. -/
def NoConfl (x y : Section) : Prop := y.conflicts_with x = false
/-- A course whose every section has at least one meeting time, all with
positive duration. -/
def SectionsValid (c : Course) : Prop :=
  ∀ sec ∈ c.sections, sec.meeting_times ≠ [] ∧
    ∀ mt ∈ sec.meeting_times, mt.begin_time < mt.end_time
/-- A meeting block whose parsed begin time is not before its end time. -/
def badDurationMT : RawMeetingTime :=
  { beginTime := some ("1000"), endTime := some ("0900"), monday := true,
    tuesday := false, wednesday := false, thursday := false, friday := false,
    creditHourSession := .missing }
/-- A meeting block with no time information but an explicit
`creditHourSession` of `4`. -/
def sessionOnlyMT : RawMeetingTime :=
  { beginTime := none, endTime := none, monday := false, tuesday := false,
    wednesday := false, thursday := false, friday := false,
    creditHourSession := PyNum.num 4 }
/-- A payload meeting block holding `sessionOnlyMT` under a present
`meetingTime` key. -/
def sessionOnlyBlock : PayloadFacultyBlock :=
  { meetingTime := MeetingTimeField.val sessionOnlyMT }
/-- A payload meeting block whose `meetingTime` key is present but
explicitly null. -/
def nullTimeBlock : PayloadFacultyBlock :=
  { meetingTime := MeetingTimeField.explicitNull }
/-- A payload record with an explicit numeric `creditHours` of `0` and a
meeting block carrying `creditHourSession = 4`. -/
def zeroCreditPayload : PayloadSection :=
  { seatsAvailable := none, subjectCourse := none, subject := none,
    courseTitle := none, creditHours := PyNum.num 0, courseReferenceNumber := "",
    meetingsFaculty := [some sessionOnlyBlock] }
/-- A payload record with no usable `creditHours` and a single block whose
`meetingTime` key is present but explicitly null — the shape on which the
credit fallback raises `AttributeError`. -/
def nullCreditPayload : PayloadSection :=
  { zeroCreditPayload with
    creditHours := PyNum.missing,
    meetingsFaculty := [some nullTimeBlock] }
/-- The configuration used in the counterexample to C3: an unsatisfiable
requirement together with an invalid (non-positive) `max_schedules`. -/
def unsatInvalidOptions : OptimizationOptions :=
  { requirements_spec := [("r", [["CSCI9999"]])], max_schedules := 0 }
/-- The options used by the C3 witness: one requirement on a course code
absent from the catalog, with the (positive) default `max_schedules`. -/
def unsatOptions : OptimizationOptions :=
  { requirements_spec := [("r", [["CSCI9999"]])] }
/-- A valid Monday 10:00–10:50 meeting block. -/
def mondayMT : RawMeetingTime :=
  { beginTime := some ("1000"), endTime := some ("1050"), monday := true,
    tuesday := false, wednesday := false, thursday := false, friday := false,
    creditHourSession := .missing }
/-- A CSCI1200 record with one valid Monday meeting and available seats. -/
def csRecord : RawSection :=
  { seatsAvailable := some 5, subjectCourse := some ("CSCI1200"),
    subject := some ("CSCI"), courseTitle := some ("Data Structures"),
    creditHours := PyNum.num 4, courseReferenceNumber := "11111",
    meetingsFaculty := [some ⟨some mondayMT⟩] }
/-- Options with a single (satisfiable, given `csRecord`) requirement. -/
def csOnlyOptions : OptimizationOptions :=
  { requirements_spec := [("cs", [["CSCI1200"]])] }
/-- A Wednesday 13:00–13:50 INQR meeting block. -/
def wHassMT : RawMeetingTime :=
  { beginTime := some ("1300"), endTime := some ("1350"), monday := false,
    tuesday := false, wednesday := true, thursday := false, friday := false,
    creditHourSession := .missing }
/-- An INQR record with one valid Wednesday meeting and available seats. -/
def wHassRecord : RawSection :=
  { seatsAvailable := some 10, subjectCourse := some ("INQR1000"),
    subject := some ("INQR"), courseTitle := some ("Intro Inquiry"),
    creditHours := PyNum.num 4, courseReferenceNumber := "33333",
    meetingsFaculty := [some ⟨some wHassMT⟩] }
/-- Options with no named requirements (only the HASS electives apply). -/
def wOptions : OptimizationOptions := { requirements_spec := [] }
/-- The serialized meeting time of the witness record. -/
def wMTOut : MeetingTimeOut :=
  { day := "Wednesday", begin_time := "1300", end_time := "1350" }
/-- The serialized section of the witness record. -/
def wSecOut : SectionOut :=
  { crn := "33333", subject_course := some ("INQR1000"), title := "Intro Inquiry",
    meeting_times := [wMTOut] }
/-- The single output entry of the witness run. -/
def wSchedOut : ScheduleOut :=
  { score := PyFloat.fin (-305/2), sections := [wSecOut] }
/-- The full output of `optimize_courses [wHassRecord] (some wOptions)`. -/
def wOut : List (String × ScheduleOut) :=
  [("Schedule 1", wSchedOut)]
/-- C2: the overlap predicate is symmetric, is false whenever the days
differ, and two meetings that merely touch at an endpoint
(`end1 = begin2` or `end2 = begin1`) never conflict. -/
theorem overlaps_symm_days_adjacency (a b : MeetingTime) :
    a.overlaps_with b = b.overlaps_with a ∧
    (a.day ≠ b.day → a.overlaps_with b = false) ∧
    ((a.end_time = b.begin_time ∨ b.end_time = a.begin_time) →
      a.overlaps_with b = false) := by
  refine ⟨?_, ?_, ?_⟩
  · by_cases h : a.day = b.day
    · simp only [MeetingTime.overlaps_with, h]
      simp only [ne_eq, not_true_eq_false, if_false, ite_false, if_neg, not_false_iff]
      exact decide_eq_decide.mpr (by omega)
    · simp [MeetingTime.overlaps_with, h, Ne.symm h]
  · intro h
    simp [MeetingTime.overlaps_with, h]
  · intro h
    by_cases hd : a.day = b.day
    · simp only [MeetingTime.overlaps_with, hd]
      simp only [ne_eq, not_true_eq_false, if_false, ite_false, if_neg, not_false_iff,
        decide_eq_false_iff_not, not_not]
      omega
    · simp [MeetingTime.overlaps_with, hd]
/-- Witness for C2: a class ending at 10:00 and one starting at 10:00 on
the same day do not conflict. -/
theorem overlaps_symm_days_adjacency_witness :
    MeetingTime.overlaps_with ⟨0, 540, 600⟩ ⟨0, 600, 660⟩ = false :=
  (overlaps_symm_days_adjacency ⟨0, 540, 600⟩ ⟨0, 600, 660⟩).2.2 (Or.inl rfl)
/-- Helper: the overlap predicate is commutative (used to move between the
two orientations of the conflict-freedom condition). -/
theorem overlaps_with_comm (a b : MeetingTime) :
    a.overlaps_with b = b.overlaps_with a := by
  by_cases h : a.day = b.day
  · simp only [MeetingTime.overlaps_with, h]
    simp only [ne_eq, not_true_eq_false, if_false, ite_false, if_neg, not_false_iff]
    exact decide_eq_decide.mpr (by omega)
  · simp [MeetingTime.overlaps_with, h, Ne.symm h]
/-- Helper: section conflict is commutative. -/
theorem conflicts_with_comm (a b : Section) :
    a.conflicts_with b = b.conflicts_with a := by
  apply Bool.eq_iff_iff.mpr
  simp only [Section.conflicts_with, List.any_eq_true]
  constructor
  · rintro ⟨x, hx, y, hy, h⟩
    exact ⟨y, hy, x, hx, by rw [overlaps_with_comm]; exact h⟩
  · rintro ⟨x, hx, y, hy, h⟩
    exact ⟨y, hy, x, hx, by rw [overlaps_with_comm]; exact h⟩
/-- Helper: the frontier update of `genSectionCombos`, characterized. -/
theorem mem_newCombos {course : Course} {combos : List (List Section)} {x : List Section} :
    (x ∈ course.sections.flatMap fun sect =>
      combos.filterMap fun combo =>
        if combo.all (fun existing => ! sect.conflicts_with existing) then
          some (combo ++ [sect])
        else none) ↔
    ∃ sect ∈ course.sections, ∃ combo ∈ combos,
      (∀ e ∈ combo, sect.conflicts_with e = false) ∧ x = combo ++ [sect] := by
  simp only [List.mem_flatMap, List.mem_filterMap, Option.ite_none_right_eq_some,
    Option.some.injEq, List.all_eq_true, Bool.not_eq_true']
  constructor
  · rintro ⟨sect, hs, combo, hc, hall, rfl⟩
    exact ⟨sect, hs, combo, hc, hall, rfl⟩
  · rintro ⟨sect, hs, combo, hc, hall, rfl⟩
    exact ⟨sect, hs, combo, hc, hall, rfl⟩
/-- Helper: an empty frontier stays empty. -/
theorem genSectionCombos_nil (courses : List Course) :
    genSectionCombos [] courses = [] := by
  cases courses with
  | nil => rfl
  | cons course rest =>
    simp [genSectionCombos]
/-- Helper: full characterization of the incremental search from an
arbitrary frontier whose members are already mutually conflict-free. -/
theorem mem_genSectionCombos {courses : List Course} {combos : List (List Section)}
    (hc : ∀ c ∈ combos, c.Pairwise NoConfl) (l : List Section) :
    l ∈ genSectionCombos combos courses ↔
      ∃ c ∈ combos, ∃ q, l = c ++ q ∧
        List.Forall₂ (fun (co : Course) (s : Section) => s ∈ co.sections) courses q ∧
        l.Pairwise NoConfl := by
  induction courses generalizing combos with
  | nil =>
    simp only [genSectionCombos]
    constructor
    · intro hl
      exact ⟨l, hl, [], by simp, List.Forall₂.nil, hc l hl⟩
    · rintro ⟨c, hcm, q, rfl, hf, _⟩
      rcases List.forall₂_nil_left_iff.mp hf with rfl
      simpa using hcm
  | cons course rest ih =>
    by_cases hs : course.sections.isEmpty
    · simp only [genSectionCombos, hs, if_true, List.not_mem_nil, false_iff]
      rintro ⟨c, _, q, rfl, hf, _⟩
      rcases hf with _ | ⟨hmem, _⟩
      rw [List.isEmpty_iff.mp hs] at hmem
      cases hmem
    · have hstep : ∀ x ∈ course.sections.flatMap fun sect =>
          combos.filterMap fun combo =>
            if combo.all (fun existing => ! sect.conflicts_with existing) then
              some (combo ++ [sect])
            else none, x.Pairwise NoConfl := by
        intro x hx
        rcases mem_newCombos.mp hx with ⟨sect, _, combo, hcm, hall, rfl⟩
        rw [List.pairwise_append]
        refine ⟨hc combo hcm, List.pairwise_singleton _ _, ?_⟩
        rintro a ha b hb
        rcases List.mem_singleton.mp hb with rfl
        exact hall a ha
      have key : ∀ nc, nc = (course.sections.flatMap fun sect =>
          combos.filterMap fun combo =>
            if combo.all (fun existing => ! sect.conflicts_with existing) then
              some (combo ++ [sect])
            else none) →
          (l ∈ genSectionCombos nc rest ↔
            ∃ c ∈ combos, ∃ q, l = c ++ q ∧
              List.Forall₂ (fun (co : Course) (s : Section) => s ∈ co.sections)
                (course :: rest) q ∧
              l.Pairwise NoConfl) := by
        intro nc hnc
        rw [ih (by intro c hcm; exact hstep c (hnc ▸ hcm))]
        constructor
        · rintro ⟨c', hc', q', rfl, hf', hp⟩
          rcases mem_newCombos.mp (hnc ▸ hc') with ⟨sect, hsect, combo, hcm, hall, rfl⟩
          refine ⟨combo, hcm, sect :: q', by simp, List.Forall₂.cons hsect hf', hp⟩
        · rintro ⟨c, hcm, q, rfl, hf, hp⟩
          rcases hf with _ | ⟨hmem, hf'⟩
          rename_i sect q'
          refine ⟨c ++ [sect], ?_, q', by simp, hf', hp⟩
          rw [hnc]
          refine mem_newCombos.mpr ⟨sect, hmem, c, hcm, ?_, rfl⟩
          intro e he
          have := (List.pairwise_append.mp (by simpa using hp)).2.2
          have h1 : List.Pairwise NoConfl (c ++ sect :: q') := by simpa using hp
          rw [List.pairwise_append] at h1
          exact h1.2.2 e he sect (List.mem_cons_self _ _)
      simp only [genSectionCombos, hs, if_false, ite_false, if_neg, Bool.not_eq_true]
      split
      · rename_i hempty
        rw [List.isEmpty_iff] at hempty
        rw [← genSectionCombos_nil rest, ← hempty]
        exact key _ rfl
      · exact key _ rfl
/-- Helper: a left member of a `Forall₂` has a related right member. -/
theorem forall2_mem_left {α β : Type} {R : α → β → Prop} {as : List α} {bs : List β}
    (h : List.Forall₂ R as bs) {a : α} (ha : a ∈ as) : ∃ b ∈ bs, R a b := by
  induction h with
  | nil => cases ha
  | cons hr _ ih =>
    rcases List.mem_cons.mp ha with rfl | ha'
    · exact ⟨_, List.mem_cons_self _ _, hr⟩
    · rcases ih ha' with ⟨b, hb, hrb⟩
      exact ⟨b, List.mem_cons_of_mem _ hb, hrb⟩
/-- C1: `generate_section_combinations` returns exactly the selections of
one section per course, in slate order, with no two chosen sections in
conflict; and a slate containing a sectionless course yields no
candidates (the empty list) rather than an error. -/
theorem generate_section_combinations_spec (cc : CourseCombo) :
    (∀ l : List Section, l ∈ cc.generate_section_combinations ↔
      (List.Forall₂ (fun (co : Course) (s : Section) => s ∈ co.sections) cc.courses l ∧
        l.Pairwise fun x y => x.conflicts_with y = false)) ∧
    ((∃ co ∈ cc.courses, co.sections = []) → cc.generate_section_combinations = []) := by
  have base : ∀ c ∈ ([[]] : List (List Section)), c.Pairwise NoConfl := by
    intro c hcm
    rcases List.mem_singleton.mp hcm with rfl
    exact List.Pairwise.nil
  have main : ∀ l : List Section, l ∈ cc.generate_section_combinations ↔
      (List.Forall₂ (fun (co : Course) (s : Section) => s ∈ co.sections) cc.courses l ∧
        l.Pairwise fun x y => x.conflicts_with y = false) := by
    intro l
    rw [CourseCombo.generate_section_combinations, mem_genSectionCombos base l]
    constructor
    · rintro ⟨c, hcm, q, rfl, hf, hp⟩
      rcases List.mem_singleton.mp hcm with rfl
      rw [List.nil_append] at hp ⊢
      refine ⟨hf, hp.imp ?_⟩
      intro a b hab
      rw [conflicts_with_comm]
      exact hab
    · rintro ⟨hf, hp⟩
      refine ⟨[], List.mem_singleton.mpr rfl, l, (List.nil_append l).symm, hf, hp.imp ?_⟩
      intro a b hab
      rw [NoConfl, conflicts_with_comm]
      exact hab
  refine ⟨main, ?_⟩
  rintro ⟨co, hco, hempty⟩
  rw [List.eq_nil_iff_forall_not_mem]
  intro l hl
  rcases (main l).mp hl with ⟨hf, _⟩
  rcases forall2_mem_left hf hco with ⟨s, _, hs⟩
  rw [hempty] at hs
  cases hs
/-- Witness for C1: a slate whose single course has no sections produces
zero candidates. -/
theorem generate_section_combinations_spec_witness :
    CourseCombo.generate_section_combinations ⟨[⟨some ("X"), "t", 0, []⟩]⟩ = [] :=
  (generate_section_combinations_spec ⟨[⟨some ("X"), "t", 0, []⟩]⟩).2
    ⟨⟨some ("X"), "t", 0, []⟩, List.mem_singleton.mpr rfl, rfl⟩
/-- Helper: every meeting time emitted by a block has positive duration. -/
theorem blockMeetingTimes_lt {fb : Option RawFacultyBlock} {mt : MeetingTime}
    (h : mt ∈ blockMeetingTimes fb) : mt.begin_time < mt.end_time := by
  unfold blockMeetingTimes at h
  split at h
  · cases h
  · split at h
    · cases h
    · split at h
      · cases h
      · split at h
        · cases h
        · split at h
          · cases h
          · rename_i hlt
            simp only [List.mem_append] at h
            rcases h with ((((h | h) | h) | h) | h) <;>
              (split at h
               · rcases List.mem_singleton.mp h with rfl
                 simpa using Nat.lt_of_not_le (by simpa using hlt)
               · cases h)
/-- C8: a meeting block with a falsy begin/end time, a malformed time
string, or a non-positive duration contributes no meeting times; every
extracted meeting time satisfies `begin < end`; and `add_section`
preserves the invariant that every materialized section has at least one
meeting time, all of positive duration (a record yielding none is never
added). -/
theorem extract_meeting_times_safety :
    (∀ (fb : RawFacultyBlock) (mt : RawMeetingTime), fb.meetingTime = some mt →
      (mt.beginTime.getD "" = "" ∨ mt.endTime.getD "" = "" ∨
       hhmm_to_minutes (mt.beginTime.getD "") = none ∨
       hhmm_to_minutes (mt.endTime.getD "") = none ∨
       (∀ b e : Nat, hhmm_to_minutes (mt.beginTime.getD "") = some b →
         hhmm_to_minutes (mt.endTime.getD "") = some e → e ≤ b)) →
      blockMeetingTimes (some fb) = []) ∧
    (∀ (record : RawSection), ∀ mt ∈ extract_meeting_times record,
      mt.begin_time < mt.end_time) ∧
    (∀ (c : Course) (record : RawSection), SectionsValid c →
      SectionsValid (c.add_section record)) := by
  refine ⟨?_, ?_, ?_⟩
  · intro fb mt hmt hbad
    rcases hbad with h | h | h | h | h
    · simp [blockMeetingTimes, hmt, h]
    · simp [blockMeetingTimes, hmt, h]
    · simp [blockMeetingTimes, hmt, h]
    · rcases hb : hhmm_to_minutes (mt.beginTime.getD "") with _ | b
      · simp [blockMeetingTimes, hmt, hb]
      · simp [blockMeetingTimes, hmt, hb, h]
    · rcases hb : hhmm_to_minutes (mt.beginTime.getD "") with _ | b
      · simp [blockMeetingTimes, hmt, hb]
      · rcases he : hhmm_to_minutes (mt.endTime.getD "") with _ | e
        · simp [blockMeetingTimes, hmt, hb, he]
        · simp [blockMeetingTimes, hmt, hb, he, h b e hb he]
  · intro record mt h
    rcases List.mem_flatMap.mp h with ⟨fb, _, hmem⟩
    exact blockMeetingTimes_lt hmem
  · intro c record hvalid
    by_cases hE : (extract_meeting_times record).isEmpty
    · simpa [Course.add_section, hE] using hvalid
    · simp only [Course.add_section, hE, if_false, ite_false, if_neg, Bool.not_eq_true]
      intro sec hsec
      rcases List.mem_append.mp hsec with h | h
      · exact hvalid sec h
      · rcases List.mem_singleton.mp h with rfl
        refine ⟨by simpa [List.isEmpty_iff] using hE, ?_⟩
        intro mt hmt
        rcases List.mem_flatMap.mp hmt with ⟨fb, _, hmem⟩
        exact blockMeetingTimes_lt hmem
/-- Witness for C8: a block running 10:00→09:00 contributes nothing. -/
theorem extract_meeting_times_safety_witness :
    blockMeetingTimes (some ⟨some badDurationMT⟩) = [] :=
  extract_meeting_times_safety.1 ⟨some badDurationMT⟩ badDurationMT rfl
    (Or.inr (Or.inr (Or.inr (Or.inr (by
      intro b e hb he
      have h1 : hhmm_to_minutes ("1000") = some 600 := by with_unfolding_all rfl
      have h2 : hhmm_to_minutes ("0900") = some 540 := by with_unfolding_all rfl
      rw [show badDurationMT.beginTime.getD "" = "1000" from rfl, h1,
        Option.some.injEq] at hb
      rw [show badDurationMT.endTime.getD "" = "0900" from rfl, h2,
        Option.some.injEq] at he
      omega)))))
/-- Helper: the `Option`-monadic map on the empty list succeeds with the
empty list. -/
theorem mapM_option_nil {α β : Type} (f : α → Option β) :
    ([] : List α).mapM f = some [] := by
  rw [List.mapM_nil]
  rfl

/-- Helper: the `Option`-monadic map on a cons, written with explicit
`Option.bind`. -/
theorem mapM_option_cons {α β : Type} (f : α → Option β) (a : α) (t : List α) :
    (a :: t).mapM f =
      Option.bind (f a) (fun b => Option.bind (t.mapM f) (fun bs => some (b :: bs))) := by
  rw [List.mapM_cons]
  rfl

/-- Helper: an `Option`-monadic map over a list fails exactly when some
element fails. -/
theorem mapM_option_eq_none {α β : Type} (f : α → Option β) (l : List α) :
    l.mapM f = none ↔ ∃ a ∈ l, f a = none := by
  induction l with
  | nil => rw [mapM_option_nil]; simp
  | cons a t ih =>
    rw [mapM_option_cons]
    cases hf : f a with
    | none => simp [hf]
    | some b =>
      cases ht : t.mapM f with
      | none =>
        simp only [Option.some_bind, Option.none_bind, List.mem_cons]
        constructor
        · intro _
          rcases ih.mp ht with ⟨x, hx, hc⟩
          exact ⟨x, Or.inr hx, hc⟩
        · intro _; trivial
      | some bs =>
        simp only [Option.some_bind, List.mem_cons]
        constructor
        · intro hc; exact Option.noConfusion hc
        · rintro ⟨x, (rfl | hx), hc⟩
          · rw [hf] at hc; exact Option.noConfusion hc
          · exact Option.noConfusion (ht.symm.trans (ih.mpr ⟨x, hx, hc⟩))

/-- Helper: when an `Option`-monadic map succeeds, its result is the map
of the (necessarily successful) element values. -/
theorem mapM_option_eq_some_getD {α β : Type} (f : α → Option β) (d : β)
    (l : List α) (bs : List β) (h : l.mapM f = some bs) :
    bs = l.map fun a => (f a).getD d := by
  induction l generalizing bs with
  | nil =>
    rw [mapM_option_nil] at h
    injection h with h
    simp [← h]
  | cons a t ih =>
    rw [mapM_option_cons] at h
    cases hf : f a with
    | none => rw [hf] at h; exact absurd h (by simp)
    | some b =>
      rw [hf] at h
      cases ht : t.mapM f with
      | none => rw [ht] at h; exact absurd h (by simp)
      | some bs' =>
        rw [ht] at h
        simp only [Option.some_bind, Option.some.injEq] at h
        simp [hf, ← h, ih bs' ht]

/-- Helper: a block's credit contribution fails exactly on an explicitly
null `meetingTime` key. -/
theorem sessionCreditTerm_eq_none_iff (ob : Option PayloadFacultyBlock) :
    sessionCreditTerm ob = none ↔
      ∃ b : PayloadFacultyBlock, ob = some b ∧
        b.meetingTime = MeetingTimeField.explicitNull := by
  cases ob with
  | none => simp [sessionCreditTerm]
  | some b => cases hb : b.meetingTime <;> simp [sessionCreditTerm, hb]

/-- Helper: embedding a null-free block into the payload shape makes its
credit contribution the pipeline's per-block fallback value. -/
theorem sessionCreditTerm_embed (ob : Option RawFacultyBlock) :
    sessionCreditTerm (ob.map fun b =>
        PayloadFacultyBlock.mk
          (match b.meetingTime with
            | none => MeetingTimeField.absent
            | some mt => MeetingTimeField.val mt)) =
      some (_safe_float (match ob.bind (fun b => b.meetingTime) with
        | some mt => mt.creditHourSession
        | none => .missing)) := by
  rcases ob with _ | ⟨mtf⟩
  · rfl
  · rcases mtf with _ | mt <;> rfl

/-- Helper: the payload-level fallback sum on an embedded null-free record
never fails and computes the pipeline's per-block fallback values. -/
theorem sessionCredit_mapM_map (blocks : List (Option RawFacultyBlock)) :
    ((blocks.map fun ob => ob.map fun b =>
        PayloadFacultyBlock.mk
          (match b.meetingTime with
            | none => MeetingTimeField.absent
            | some mt => MeetingTimeField.val mt)).mapM sessionCreditTerm) =
      some (blocks.map fun m =>
        _safe_float (match m.bind (fun b => b.meetingTime) with
          | some mt => mt.creditHourSession
          | none => .missing)) := by
  induction blocks with
  | nil =>
    rw [List.map_nil, mapM_option_nil, List.map_nil]
  | cons ob t ih =>
    rw [List.map_cons, mapM_option_cons, ih, List.map_cons,
      sessionCreditTerm_embed]
    rfl

/-- Helper: on the null-free records of the pipeline the payload-level
credit extraction never raises and agrees with the total pipeline
version. -/
theorem compute_section_credits_restriction (record : RawSection) :
    compute_section_creditsPayload record.toPayload =
      some (compute_section_credits record) := by
  have hsum : sessionCreditSumPayload record.toPayload =
      some (sessionCreditSum record) := by
    unfold sessionCreditSumPayload sessionCreditSum RawSection.toPayload
    dsimp only
    rw [sessionCredit_mapM_map]
    rfl
  have hc : _safe_float record.toPayload.creditHours =
      _safe_float record.creditHours := rfl
  by_cases h : _safe_float record.creditHours ≠ 0
  · unfold compute_section_creditsPayload compute_section_credits
    dsimp only
    rw [hc]
    simp [h]
  · simp only [not_not] at h
    unfold compute_section_creditsPayload compute_section_credits
    dsimp only
    rw [hc, h]
    simp [hsum]

/-- Counterexample to C9 as stated: (i) `zeroCreditPayload` has
`creditHours` present and numeric (the value `0`), yet the extracted
credit value is the fallback session sum `4`, not the field's value `0` —
Python's `if credits:` treats an explicit numeric zero as absent; and
(ii) on `nullCreditPayload`, whose single meeting block carries an
explicitly null `meetingTime` key, the extraction raises `AttributeError`
(modelled by `none`), refuting "the extraction never raises". -/
theorem compute_section_credits_counterexample :
    (zeroCreditPayload.creditHours = PyNum.num 0 ∧
      compute_section_creditsPayload zeroCreditPayload = some 4 ∧ (4 : ℚ) ≠ 0) ∧
    compute_section_creditsPayload nullCreditPayload = none :=
  ⟨⟨rfl, by with_unfolding_all rfl, by norm_num⟩, by with_unfolding_all rfl⟩

/-- C9 (amended): the extracted credit value equals the explicit
`creditHours` field whenever that field is present, numeric and nonzero —
never raising on that path; otherwise it equals the per-meeting-block
`creditHourSession` fallback sum, with each missing or non-numeric value
contributing `0` — and that fallback raises `AttributeError` exactly when
some meeting block carries an explicitly null `meetingTime` key, never
raising otherwise. -/
theorem compute_section_credits_cases (record : PayloadSection) :
    (∀ q : ℚ, record.creditHours = PyNum.num q → q ≠ 0 →
      compute_section_creditsPayload record = some q) ∧
    ((record.creditHours = PyNum.missing ∨ record.creditHours = PyNum.nonNumeric ∨
      record.creditHours = PyNum.num 0) →
      compute_section_creditsPayload record = sessionCreditSumPayload record) ∧
    (sessionCreditSumPayload record = none ↔
      ∃ ob ∈ record.meetingsFaculty, ∃ b : PayloadFacultyBlock, ob = some b ∧
        b.meetingTime = MeetingTimeField.explicitNull) ∧
    (∀ q : ℚ, sessionCreditSumPayload record = some q →
      q = (record.meetingsFaculty.map fun ob => (sessionCreditTerm ob).getD 0).sum) := by
  refine ⟨?_, ?_, ?_, ?_⟩
  · intro q hq hne
    simp [compute_section_creditsPayload, _safe_float, hq, hne]
  · rintro (h | h | h) <;>
      simp [compute_section_creditsPayload, _safe_float, h]
  · constructor
    · intro hnone
      have hm : record.meetingsFaculty.mapM sessionCreditTerm = none := by
        rcases hm : record.meetingsFaculty.mapM sessionCreditTerm with _ | bs
        · rfl
        · unfold sessionCreditSumPayload at hnone
          rw [hm] at hnone
          exact Option.noConfusion hnone
      rcases (mapM_option_eq_none _ _).mp hm with ⟨ob, hob, hob_none⟩
      rcases (sessionCreditTerm_eq_none_iff ob).mp hob_none with ⟨b, rfl, hb⟩
      exact ⟨some b, hob, b, rfl, hb⟩
    · rintro ⟨ob, hob, b, rfl, hb⟩
      have hm : record.meetingsFaculty.mapM sessionCreditTerm = none :=
        (mapM_option_eq_none _ _).mpr
          ⟨some b, hob, (sessionCreditTerm_eq_none_iff (some b)).mpr ⟨b, rfl, hb⟩⟩
      unfold sessionCreditSumPayload
      rw [hm]
      rfl
  · intro q hq
    unfold sessionCreditSumPayload at hq
    rcases hm : record.meetingsFaculty.mapM sessionCreditTerm with _ | bs
    · rw [hm] at hq
      exact absurd hq (by simp)
    · rw [hm] at hq
      have hq2 : some bs.sum = some q := hq
      injection hq2 with hq3
      rw [← hq3, mapM_option_eq_some_getD sessionCreditTerm 0 _ bs hm]

/-- Witness for the amended C9: a record with `creditHours = 4` extracts
exactly `4` without raising. -/
theorem compute_section_credits_cases_witness :
    compute_section_creditsPayload
      { zeroCreditPayload with creditHours := PyNum.num 4 } = some 4 :=
  (compute_section_credits_cases
    { zeroCreditPayload with creditHours := PyNum.num 4 }).1 4 rfl (by norm_num)

/-- Helper: the Cartesian-expansion loop returns `none` (the early
`return {}`) as soon as some requirement has no groups. -/
theorem buildCombos_none {gls : List (List (List Course))} (h : [] ∈ gls)
    (acc : List (List Course)) : buildCombos gls acc = none := by
  induction gls generalizing acc with
  | nil => cases h
  | cons g rest ih =>
    rcases List.mem_cons.mp h with rfl | h'
    · simp [buildCombos]
    · by_cases hg : g.isEmpty
      · simp [buildCombos, hg]
      · simp only [buildCombos, hg, if_false, ite_false, if_neg, Bool.not_eq_true]
        exact ih h' _
/-- Helper: Python dict assignment always leaves the assigned pair in the
dictionary. -/
theorem dset_mem {κ β : Type} [DecidableEq κ] (d : List (κ × β)) (k : κ) (v : β) :
    (k, v) ∈ dset d k v := by
  unfold dset
  split
  · rename_i hany
    rcases List.any_eq_true.mp hany with ⟨kv₀, hkv₀, hk⟩
    refine List.mem_map.mpr ⟨kv₀, hkv₀, ?_⟩
    simp [of_decide_eq_true hk]
  · exact List.mem_append_right _ (List.mem_singleton.mpr rfl)
/-- Helper: with a positive `max_schedules` and some requirement having
zero concrete groups, `optimize_courses` returns the empty mapping. -/
theorem optimize_empty_of_empty_requirement (courses_data : List RawSection)
    (options : Option OptimizationOptions)
    (requirements_spec : Option (List (String × List (List String))))
    (hass_subject : Option String) (max_schedules : Option Int)
    (scoring : Option ScoringWeights) (min_seats_available : Option Int)
    (include_subjects : Option (List String)) (exclude_subjects : Option (List String))
    (penalties : Option (List PenaltyHook))
    (hpos : ¬ (_resolve_options options requirements_spec hass_subject max_schedules
      scoring min_seats_available include_subjects exclude_subjects
      penalties).max_schedules ≤ 0)
    (hreq : ∃ kv ∈ requirementsTable courses_data
      (_resolve_options options requirements_spec hass_subject max_schedules scoring
        min_seats_available include_subjects exclude_subjects penalties), kv.2 = []) :
    optimize_courses courses_data options requirements_spec hass_subject max_schedules
      scoring min_seats_available include_subjects exclude_subjects penalties =
      .ok [] := by
  rcases hreq with ⟨kv, hkv, hnil⟩
  have hmem : ([] : List (List Course)) ∈ (requirementsTable courses_data
      (_resolve_options options requirements_spec hass_subject max_schedules scoring
        min_seats_available include_subjects exclude_subjects penalties)).map
      fun kv => kv.2 :=
    List.mem_map.mpr ⟨kv, hkv, hnil⟩
  have hvs : validSchedules courses_data
      (_resolve_options options requirements_spec hass_subject max_schedules scoring
        min_seats_available include_subjects exclude_subjects penalties) = none := by
    unfold validSchedules
    rw [buildCombos_none hmem]
    rfl
  unfold optimize_courses
  rw [if_neg hpos, hvs]
/-- C5: whenever the resolved `max_schedules` is zero or negative,
`optimize_courses` raises the configuration error, for every catalog —
before any resolution, enumeration or scoring work could depend on it —
a failure distinct from the empty mapping of zero results. -/
theorem optimize_max_schedules_fail_fast (courses_data : List RawSection)
    (options : Option OptimizationOptions)
    (requirements_spec : Option (List (String × List (List String))))
    (hass_subject : Option String) (max_schedules : Option Int)
    (scoring : Option ScoringWeights) (min_seats_available : Option Int)
    (include_subjects : Option (List String)) (exclude_subjects : Option (List String))
    (penalties : Option (List PenaltyHook))
    (h : (_resolve_options options requirements_spec hass_subject max_schedules
      scoring min_seats_available include_subjects exclude_subjects
      penalties).max_schedules ≤ 0) :
    optimize_courses courses_data options requirements_spec hass_subject max_schedules
      scoring min_seats_available include_subjects exclude_subjects penalties =
      .error ("max_schedules must be positive") ∧
    ∀ out : List (String × ScheduleOut),
      optimize_courses courses_data options requirements_spec hass_subject max_schedules
        scoring min_seats_available include_subjects exclude_subjects penalties ≠
        .ok out := by
  have heq : optimize_courses courses_data options requirements_spec hass_subject
      max_schedules scoring min_seats_available include_subjects exclude_subjects
      penalties = .error ("max_schedules must be positive") := by
    unfold optimize_courses
    rw [if_pos h]
  exact ⟨heq, fun out hout => by rw [heq] at hout; cases hout⟩
/-- Witness for C5: `max_schedules = 0` fails fast on an empty catalog. -/
theorem optimize_max_schedules_fail_fast_witness :
    optimize_courses [] none none none (some 0) none none none none none =
      .error ("max_schedules must be positive") :=
  (optimize_max_schedules_fail_fast [] none none none (some 0) none none none none
    none (by with_unfolding_all decide)).1
/-- Counterexample to C3 as stated: with configuration
`unsatInvalidOptions` and an empty catalog, requirement `"r"` resolves to
zero concrete groups, yet `optimize_courses` raises the configuration
error instead of returning the empty mapping — the claim's "for every
configuration … never an error" fails on configurations with non-positive
`max_schedules`. -/
theorem optimize_unsatisfiable_counterexample :
    (("r", ([] : List (List Course))) ∈ requirementsTable []
      (_resolve_options (some unsatInvalidOptions) none none none none none none
        none none)) ∧
    optimize_courses [] (some unsatInvalidOptions) =
      .error ("max_schedules must be positive") ∧
    ∀ out : List (String × ScheduleOut),
      optimize_courses [] (some unsatInvalidOptions) ≠ .ok out := by
  refine ⟨by with_unfolding_all decide, by with_unfolding_all rfl, ?_⟩
  intro out hout
  have heq : optimize_courses [] (some unsatInvalidOptions) =
      .error ("max_schedules must be positive") := by with_unfolding_all rfl
  rw [heq] at hout
  cases hout
/-- C3 (amended): for every catalog and every configuration that passes
validation (positive resolved `max_schedules`), if any requirement —
including the synthesized elective requirement — resolves to zero concrete
groups, `optimize_courses` returns the empty output mapping: never a
partial result and never an error. -/
theorem optimize_unsatisfiable_requirement_empty (courses_data : List RawSection)
    (options : Option OptimizationOptions)
    (requirements_spec : Option (List (String × List (List String))))
    (hass_subject : Option String) (max_schedules : Option Int)
    (scoring : Option ScoringWeights) (min_seats_available : Option Int)
    (include_subjects : Option (List String)) (exclude_subjects : Option (List String))
    (penalties : Option (List PenaltyHook))
    (hpos : 0 < (_resolve_options options requirements_spec hass_subject max_schedules
      scoring min_seats_available include_subjects exclude_subjects
      penalties).max_schedules)
    (hreq : ∃ kv ∈ requirementsTable courses_data
      (_resolve_options options requirements_spec hass_subject max_schedules scoring
        min_seats_available include_subjects exclude_subjects penalties), kv.2 = []) :
    optimize_courses courses_data options requirements_spec hass_subject max_schedules
      scoring min_seats_available include_subjects exclude_subjects penalties =
      .ok [] :=
  optimize_empty_of_empty_requirement courses_data options requirements_spec
    hass_subject max_schedules scoring min_seats_available include_subjects
    exclude_subjects penalties (not_le.mpr hpos) hreq
/-- Witness for the amended C3: an unsatisfiable requirement on the empty
catalog yields the empty mapping. -/
theorem optimize_unsatisfiable_requirement_empty_witness :
    optimize_courses [] (some unsatOptions) = .ok [] :=
  optimize_unsatisfiable_requirement_empty [] (some unsatOptions) none none none none
    none none none none (by with_unfolding_all decide)
    ⟨("r", []), by with_unfolding_all decide, rfl⟩
/-- C10: if no course of the configured elective (HASS) subject ends up
with any section (so the synthesized elective requirement has zero
groups), `optimize_courses` returns the empty output mapping — the
elective requirement is mandatory, regardless of how satisfiable the named
requirements are. -/
theorem optimize_empty_when_no_hass (courses_data : List RawSection)
    (options : Option OptimizationOptions)
    (requirements_spec : Option (List (String × List (List String))))
    (hass_subject : Option String) (max_schedules : Option Int)
    (scoring : Option ScoringWeights) (min_seats_available : Option Int)
    (include_subjects : Option (List String)) (exclude_subjects : Option (List String))
    (penalties : Option (List PenaltyHook))
    (hpos : 0 < (_resolve_options options requirements_spec hass_subject max_schedules
      scoring min_seats_available include_subjects exclude_subjects
      penalties).max_schedules)
    (hhass : ∀ kv ∈ (buildDicts courses_data
      (_resolve_options options requirements_spec hass_subject max_schedules scoring
        min_seats_available include_subjects exclude_subjects penalties)).hass_dict,
      kv.2.sections = []) :
    optimize_courses courses_data options requirements_spec hass_subject max_schedules
      scoring min_seats_available include_subjects exclude_subjects penalties =
      .ok [] := by
  apply optimize_empty_of_empty_requirement _ _ _ _ _ _ _ _ _ _ (not_le.mpr hpos)
  refine ⟨("hass_electives", []), ?_, rfl⟩
  have hg : hassGroups (buildDicts courses_data
      (_resolve_options options requirements_spec hass_subject max_schedules scoring
        min_seats_available include_subjects exclude_subjects
        penalties)).hass_dict = [] := by
    unfold hassGroups
    rw [List.filter_eq_nil.mpr, List.map_nil]
    intro c hc
    rcases List.mem_map.mp hc with ⟨kv, hkv, rfl⟩
    simp [List.isEmpty_iff, hhass kv hkv]
  unfold requirementsTable
  dsimp only
  rw [hg]
  exact dset_mem _ _ _
/-- Witness for C10: the named requirement is satisfiable, but with no
HASS-subject course carrying sections the output is empty. -/
theorem optimize_empty_when_no_hass_witness :
    optimize_courses [csRecord] (some csOnlyOptions) = .ok [] :=
  optimize_empty_when_no_hass [csRecord] (some csOnlyOptions) none none none none
    none none none none (by with_unfolding_all decide)
    (by with_unfolding_all decide)
/-- C7: a penalty hook that raises on the candidate contributes exactly
zero and does not abort scoring — the result equals the score computed
with that hook removed, with the remaining hooks' deltas still applied. -/
theorem evaluate_schedule_hook_isolation (schedule : List Section)
    (weights : ScoringWeights) (p₁ p₂ : List PenaltyHook) (h : PenaltyHook)
    (hs : schedule ≠ []) (hraise : h schedule = none) :
    evaluate_schedule schedule weights (p₁ ++ h :: p₂) =
      evaluate_schedule schedule weights (p₁ ++ p₂) := by
  have hp : scoreParts schedule weights (p₁ ++ h :: p₂) =
      scoreParts schedule weights (p₁ ++ p₂) := by
    unfold scoreParts
    simp [hraise]
  unfold evaluate_schedule
  rw [hp]
/-- Witness for C7: on a one-section schedule, a raising hook between two
constant hooks changes nothing. -/
theorem evaluate_schedule_hook_isolation_witness :
    evaluate_schedule [⟨[⟨0, 600, 650⟩], some ("CSCI1200"), "t", "1"⟩] {}
        ([fun _ => some 7] ++ (fun _ => none) :: [fun _ => some (-2)]) =
      evaluate_schedule [⟨[⟨0, 600, 650⟩], some ("CSCI1200"), "t", "1"⟩] {}
        ([fun _ => some 7] ++ [fun _ => some (-2)]) :=
  evaluate_schedule_hook_isolation [⟨[⟨0, 600, 650⟩], some ("CSCI1200"), "t", "1"⟩] {}
    [fun _ => some 7] [fun _ => some (-2)] (fun _ => none) (by simp) rfl
/-! ### Exactness of the symbolic rounding machinery -/
theorem ratLeSqrt_iff {c v : ℚ} (hv : 0 ≤ v) :
    ratLeSqrt c v = true ↔ (c : ℝ) ≤ Real.sqrt (v : ℝ) := by
  unfold ratLeSqrt
  simp only [Bool.or_eq_true, decide_eq_true_eq]
  constructor
  · rintro (h | h)
    · exact le_trans (by exact_mod_cast h) (Real.sqrt_nonneg _)
    · rcases le_or_lt c 0 with hc | hc
      · exact le_trans (by exact_mod_cast hc) (Real.sqrt_nonneg _)
      · rw [show ((c : ℝ)) = Real.sqrt ((c : ℝ) ^ 2) from
          (Real.sqrt_sq (by positivity)).symm]
        exact Real.sqrt_le_sqrt (by exact_mod_cast h)
  · intro h
    rcases le_or_lt c 0 with hc | hc
    · exact Or.inl hc
    · right
      have h2 : ((c : ℝ)) ^ 2 ≤ Real.sqrt (v : ℝ) ^ 2 := by
        apply pow_le_pow_left (by positivity) h
      rw [Real.sq_sqrt (by exact_mod_cast hv)] at h2
      exact_mod_cast h2
theorem sqrtLeRat_iff {c v : ℚ} (hv : 0 ≤ v) :
    sqrtLeRat v c = true ↔ Real.sqrt (v : ℝ) ≤ (c : ℝ) := by
  unfold sqrtLeRat
  simp only [Bool.and_eq_true, decide_eq_true_eq]
  constructor
  · rintro ⟨hc, h⟩
    rw [show ((c : ℝ)) = Real.sqrt ((c : ℝ) ^ 2) from
      (Real.sqrt_sq (by exact_mod_cast hc)).symm]
    exact Real.sqrt_le_sqrt (by exact_mod_cast h)
  · intro h
    have hc : (0 : ℚ) ≤ c := by
      have := le_trans (Real.sqrt_nonneg ((v : ℝ))) h
      exact_mod_cast this
    refine ⟨hc, ?_⟩
    have h2 : Real.sqrt ((v : ℝ)) ^ 2 ≤ ((c : ℝ)) ^ 2 :=
      pow_le_pow_left (Real.sqrt_nonneg _) h 2
    rw [Real.sq_sqrt (by exact_mod_cast hv)] at h2
    exact_mod_cast h2
theorem natSqrt_floor_bounds {v : ℚ} (hv : 0 ≤ v) :
    ((Nat.sqrt (Int.toNat ⌊v⌋) : ℝ)) ≤ Real.sqrt (v : ℝ) ∧
      Real.sqrt (v : ℝ) < (Nat.sqrt (Int.toNat ⌊v⌋) : ℝ) + 1 := by
  set m : Nat := Int.toNat ⌊v⌋ with hm
  have hmv : ((m : ℚ)) ≤ v := by
    rw [hm]
    have hnn : ((⌊v⌋.toNat : ℤ)) = ⌊v⌋ := Int.toNat_of_nonneg (Int.floor_nonneg.mpr hv)
    have : ((⌊v⌋.toNat : ℚ)) = ((⌊v⌋ : ℤ) : ℚ) := by exact_mod_cast hnn
    rw [this]
    exact Int.floor_le v
  have hvm : v < (m : ℚ) + 1 := by
    rw [hm]
    have hnn : ((⌊v⌋.toNat : ℤ)) = ⌊v⌋ := Int.toNat_of_nonneg (Int.floor_nonneg.mpr hv)
    have : ((⌊v⌋.toNat : ℚ)) = ((⌊v⌋ : ℤ) : ℚ) := by exact_mod_cast hnn
    rw [this]
    exact_mod_cast Int.lt_floor_add_one v
  constructor
  · rw [show ((Nat.sqrt m : ℝ)) = Real.sqrt ((Nat.sqrt m : ℝ) ^ 2) from
      (Real.sqrt_sq (by positivity)).symm]
    apply Real.sqrt_le_sqrt
    have h1 : (Nat.sqrt m) ^ 2 ≤ m := Nat.sqrt_le' m
    calc ((Nat.sqrt m : ℝ)) ^ 2 ≤ (m : ℝ) := by exact_mod_cast h1
      _ ≤ ((v : ℝ)) := by exact_mod_cast hmv
  · have h2 : m < (Nat.sqrt m + 1) ^ 2 := Nat.lt_succ_sqrt' m
    have : ((v : ℝ)) < ((Nat.sqrt m : ℝ) + 1) ^ 2 := by
      calc ((v : ℝ)) < (m : ℝ) + 1 := by exact_mod_cast hvm
        _ ≤ ((Nat.sqrt m : ℝ) + 1) ^ 2 := by
          have : ((m : ℝ)) + 1 ≤ ((Nat.sqrt m + 1 : ℕ) : ℝ) ^ 2 := by
            exact_mod_cast Nat.succ_le_of_lt h2
          simpa using this
    calc Real.sqrt ((v : ℝ)) < Real.sqrt (((Nat.sqrt m : ℝ) + 1) ^ 2) := by
          apply Real.sqrt_lt_sqrt (by exact_mod_cast hv) this
      _ = (Nat.sqrt m : ℝ) + 1 := Real.sqrt_sq (by positivity)
theorem floorAddSqrt_eq {a v : ℚ} (hv : 0 ≤ v) :
    floorAddSqrt a v = ⌊(a : ℝ) + Real.sqrt (v : ℝ)⌋ := by
  rcases natSqrt_floor_bounds hv with ⟨hs1, hs2⟩
  have hfl : ((⌊a⌋ : ℝ)) ≤ (a : ℝ) := by exact_mod_cast Int.floor_le a
  have hfl2 : ((a : ℝ)) < (⌊a⌋ : ℝ) + 1 := by exact_mod_cast Int.lt_floor_add_one a
  unfold floorAddSqrt
  dsimp only
  split
  · rename_i hcond
    rw [ratLeSqrt_iff hv] at hcond
    push_cast at hcond
    symm
    rw [Int.floor_eq_iff]
    constructor
    · push_cast
      linarith
    · push_cast
      linarith
  · rename_i hcond
    have hcond2 : ¬ ((((⌊a⌋ : ℝ) + (Nat.sqrt (Int.toNat ⌊v⌋) : ℝ)) + 1 - a) ≤
        Real.sqrt (v : ℝ)) := by
      intro hc
      apply hcond
      rw [ratLeSqrt_iff hv]
      push_cast
      linarith
    push_cast at hcond2
    symm
    rw [Int.floor_eq_iff]
    constructor
    · push_cast
      linarith
    · push_cast
      linarith
theorem floorSubSqrt_eq {a v : ℚ} (hv : 0 ≤ v) :
    floorSubSqrt a v = ⌊(a : ℝ) - Real.sqrt (v : ℝ)⌋ := by
  rcases natSqrt_floor_bounds hv with ⟨hs1, hs2⟩
  have hfl : ((⌊a⌋ : ℝ)) ≤ (a : ℝ) := by exact_mod_cast Int.floor_le a
  have hfl2 : ((a : ℝ)) < (⌊a⌋ : ℝ) + 1 := by exact_mod_cast Int.lt_floor_add_one a
  unfold floorSubSqrt
  dsimp only
  split
  · rename_i hcond
    rw [sqrtLeRat_iff hv] at hcond
    push_cast at hcond
    symm
    rw [Int.floor_eq_iff]
    constructor
    · push_cast
      linarith
    · push_cast
      linarith
  · rename_i hcond
    have hcond2 : ¬ (Real.sqrt (v : ℝ) ≤
        ((a : ℝ) - (((⌊a⌋ : ℝ) - (Nat.sqrt (Int.toNat ⌊v⌋) : ℝ) - 1) + 1))) := by
      intro hc
      apply hcond
      rw [sqrtLeRat_iff hv]
      push_cast
      linarith
    push_cast at hcond2
    symm
    rw [Int.floor_eq_iff]
    constructor
    · push_cast
      linarith
    · push_cast
      linarith
theorem sqrt_sq_mul {u v : ℚ} (hv : 0 ≤ v) :
    Real.sqrt (((u ^ 2 * v : ℚ) : ℝ)) = |(u : ℝ)| * Real.sqrt (v : ℝ) := by
  push_cast
  rw [Real.sqrt_mul (by positivity)]
  rw [Real.sqrt_sq_eq_abs]
theorem floorSubMulSqrt_eq {a u v : ℚ} (hv : 0 ≤ v) :
    floorSubMulSqrt a u v = ⌊(a : ℝ) - (u : ℝ) * Real.sqrt (v : ℝ)⌋ := by
  unfold floorSubMulSqrt
  have hv2 : (0 : ℚ) ≤ u ^ 2 * v := by positivity
  split
  · rename_i hu
    rw [floorSubSqrt_eq hv2, sqrt_sq_mul hv]
    rw [abs_of_nonneg (by exact_mod_cast hu : (0 : ℝ) ≤ (u : ℝ))]
  · rename_i hu
    push_neg at hu
    rw [floorAddSqrt_eq hv2, sqrt_sq_mul hv]
    rw [abs_of_neg (by exact_mod_cast hu : ((u : ℝ)) < 0)]
    ring_nf
theorem mulSqrtLtRat_iff {u v d : ℚ} (hv : 0 ≤ v) :
    mulSqrtLtRat u v d = true ↔ (u : ℝ) * Real.sqrt (v : ℝ) < (d : ℝ) := by
  unfold mulSqrtLtRat
  have hkey : Real.sqrt (((u ^ 2 * v : ℚ) : ℝ)) = |(u : ℝ)| * Real.sqrt (v : ℝ) :=
    sqrt_sq_mul hv
  have hw : ((0 : ℝ)) ≤ ((u ^ 2 * v : ℚ) : ℝ) := by
    have : (0 : ℚ) ≤ u ^ 2 * v := by positivity
    exact_mod_cast this
  split
  · rename_i hu
    simp only [Bool.and_eq_true, decide_eq_true_eq]
    have habs : |(u : ℝ)| = (u : ℝ) := abs_of_nonneg (by exact_mod_cast hu)
    rw [habs] at hkey
    constructor
    · rintro ⟨hd, hlt⟩
      rw [← hkey]
      rw [Real.sqrt_lt' (by exact_mod_cast hd)]
      push_cast
      exact_mod_cast hlt
    · intro h
      have hd : (0 : ℝ) < (d : ℝ) :=
        lt_of_le_of_lt (by positivity : (0:ℝ) ≤ (u : ℝ) * Real.sqrt (v : ℝ)) h
      refine ⟨by exact_mod_cast hd, ?_⟩
      rw [← hkey] at h
      rw [Real.sqrt_lt' hd] at h
      exact_mod_cast h
  · rename_i hu
    push_neg at hu
    simp only [Bool.or_eq_true, decide_eq_true_eq]
    have habs : |(u : ℝ)| = -(u : ℝ) := abs_of_neg (by exact_mod_cast hu)
    rw [habs] at hkey
    constructor
    · rintro (hd | hlt)
      · calc (u : ℝ) * Real.sqrt (v : ℝ) ≤ 0 := by
              apply mul_nonpos_of_nonpos_of_nonneg
              · exact_mod_cast hu.le
              · exact Real.sqrt_nonneg _
          _ < (d : ℝ) := by exact_mod_cast hd
      · rcases lt_or_le 0 d with hd | hd
        · calc (u : ℝ) * Real.sqrt (v : ℝ) ≤ 0 := by
                apply mul_nonpos_of_nonpos_of_nonneg
                · exact_mod_cast hu.le
                · exact Real.sqrt_nonneg _
            _ < (d : ℝ) := by exact_mod_cast hd
        · have hd' : (0 : ℝ) ≤ -(d : ℝ) := by
            have : ((d : ℝ)) ≤ 0 := by exact_mod_cast hd
            linarith
          have h1 : -(d : ℝ) < Real.sqrt (((u ^ 2 * v : ℚ) : ℝ)) := by
            rw [Real.lt_sqrt hd']
            push_cast
            have : ((d : ℝ)) ^ 2 < ((u : ℝ)) ^ 2 * ((v : ℝ)) := by exact_mod_cast hlt
            nlinarith [this]
          rw [hkey] at h1
          nlinarith [h1]
    · intro h
      rcases lt_or_le 0 d with hd | hd
      · exact Or.inl (by exact_mod_cast hd)
      · right
        have hd' : (0 : ℝ) ≤ -(d : ℝ) := by
          have : ((d : ℝ)) ≤ 0 := by exact_mod_cast hd
          linarith
        have h1 : -(d : ℝ) < -((u : ℝ) * Real.sqrt (v : ℝ)) := by linarith
        have h2 : -(d : ℝ) < Real.sqrt (((u ^ 2 * v : ℚ) : ℝ)) := by
          rw [hkey]
          nlinarith [h1]
        rw [Real.lt_sqrt hd'] at h2
        push_cast at h2
        have : ((d : ℝ)) ^ 2 < ((u : ℝ)) ^ 2 * ((v : ℝ)) := by nlinarith [h2]
        exact_mod_cast this
theorem mulSqrtEqRat_iff {u v d : ℚ} (hv : 0 ≤ v) :
    mulSqrtEqRat u v d = true ↔ (u : ℝ) * Real.sqrt (v : ℝ) = (d : ℝ) := by
  unfold mulSqrtEqRat
  have hkey : Real.sqrt (((u ^ 2 * v : ℚ) : ℝ)) = |(u : ℝ)| * Real.sqrt (v : ℝ) :=
    sqrt_sq_mul hv
  have hw : ((0 : ℝ)) ≤ ((u ^ 2 * v : ℚ) : ℝ) := by
    have : (0 : ℚ) ≤ u ^ 2 * v := by positivity
    exact_mod_cast this
  have hsq : Real.sqrt (((u ^ 2 * v : ℚ) : ℝ)) ^ 2 = ((u ^ 2 * v : ℚ) : ℝ) :=
    Real.sq_sqrt hw
  split
  · rename_i hu
    simp only [Bool.and_eq_true, decide_eq_true_eq]
    have habs : |(u : ℝ)| = (u : ℝ) := abs_of_nonneg (by exact_mod_cast hu)
    rw [habs] at hkey
    constructor
    · rintro ⟨hd, he⟩
      rw [← hkey]
      rw [show ((d : ℝ)) = Real.sqrt (((d : ℝ)) ^ 2) from
        (Real.sqrt_sq (by exact_mod_cast hd)).symm]
      congr 1
      push_cast
      first
      | exact_mod_cast he
      | exact_mod_cast he.symm
    · intro h
      have hd : (0 : ℝ) ≤ (d : ℝ) := by
        rw [← h]
        positivity
      refine ⟨by exact_mod_cast hd, ?_⟩
      have h2 : (((u : ℝ)) * Real.sqrt ((v : ℝ))) ^ 2 = ((d : ℝ)) ^ 2 := by rw [h]
      rw [← hkey] at h2
      rw [hsq] at h2
      have : ((d : ℝ)) ^ 2 = ((u : ℝ)) ^ 2 * ((v : ℝ)) := by
        push_cast at h2
        linarith
      exact_mod_cast this
  · rename_i hu
    push_neg at hu
    simp only [Bool.and_eq_true, decide_eq_true_eq]
    have habs : |(u : ℝ)| = -(u : ℝ) := abs_of_neg (by exact_mod_cast hu)
    rw [habs] at hkey
    constructor
    · rintro ⟨hd, he⟩
      have hd' : (0 : ℝ) ≤ -(d : ℝ) := by
        have : ((d : ℝ)) ≤ 0 := by exact_mod_cast hd
        linarith
      have h1 : Real.sqrt (((u ^ 2 * v : ℚ) : ℝ)) = -(d : ℝ) := by
        rw [show (-(d : ℝ)) = Real.sqrt ((-(d : ℝ)) ^ 2) from
          (Real.sqrt_sq hd').symm]
        congr 1
        have : ((d : ℝ)) ^ 2 = ((u : ℝ)) ^ 2 * ((v : ℝ)) := by exact_mod_cast he
        push_cast
        nlinarith [this]
      rw [hkey] at h1
      linarith [h1]
    · intro h
      have hd : ((d : ℝ)) ≤ 0 := by
        rw [← h]
        apply mul_nonpos_of_nonpos_of_nonneg
        · exact_mod_cast hu.le
        · exact Real.sqrt_nonneg _
      refine ⟨by exact_mod_cast hd, ?_⟩
      have h2 : (((u : ℝ)) * Real.sqrt ((v : ℝ))) ^ 2 = ((d : ℝ)) ^ 2 := by rw [h]
      have h3 : ((u : ℝ)) ^ 2 * (Real.sqrt ((v : ℝ))) ^ 2 = ((d : ℝ)) ^ 2 := by
        nlinarith [h2]
      rw [Real.sq_sqrt (by exact_mod_cast hv : ((0:ℝ)) ≤ ((v : ℝ)))] at h3
      have : ((d : ℝ)) ^ 2 = ((u : ℝ)) ^ 2 * ((v : ℝ)) := by linarith
      exact_mod_cast this
theorem roundHalfEvenSub_bound {a u v : ℚ} (hv : 0 ≤ v) :
    |((roundHalfEvenSub a u v : ℤ) : ℝ) - ((a : ℝ) - (u : ℝ) * Real.sqrt (v : ℝ))| ≤
      1/2 := by
  set y : ℝ := (a : ℝ) - (u : ℝ) * Real.sqrt (v : ℝ) with hy
  have hfl : floorSubMulSqrt a u v = ⌊y⌋ := floorSubMulSqrt_eq hv
  unfold roundHalfEvenSub
  dsimp only
  rw [hfl]
  have hny : ((⌊y⌋ : ℤ) : ℝ) ≤ y := Int.floor_le y
  have hny2 : y < ((⌊y⌋ : ℤ) : ℝ) + 1 := Int.lt_floor_add_one y
  set n : Int := ⌊y⌋ with hn
  have hdc : (((a - (n : ℚ) - 1/2 : ℚ)) : ℝ) = (a : ℝ) - ((n : ℤ) : ℝ) - 1/2 := by
    push_cast
    ring
  split
  · rename_i hlt
    rw [mulSqrtLtRat_iff hv, hdc] at hlt
    have hgt : ((n : ℤ) : ℝ) + 1/2 < y := by rw [hy]; linarith
    rw [abs_le]
    constructor
    · push_cast
      linarith
    · push_cast
      linarith
  · rename_i hnlt
    have hnlt2 : ¬ ((u : ℝ) * Real.sqrt (v : ℝ) < (((a - (n : ℚ) - 1/2 : ℚ)) : ℝ)) := by
      intro hc
      exact hnlt (by rw [mulSqrtLtRat_iff hv]; exact hc)
    rw [hdc] at hnlt2
    push_neg at hnlt2
    have hyle : y ≤ ((n : ℤ) : ℝ) + 1/2 := by rw [hy]; linarith
    split
    · rename_i heq
      rw [mulSqrtEqRat_iff hv, hdc] at heq
      have hyeq : y = ((n : ℤ) : ℝ) + 1/2 := by rw [hy]; linarith
      split
      · rw [abs_le]
        constructor
        · push_cast
          linarith
        · push_cast
          linarith
      · rw [abs_le]
        constructor
        · push_cast
          linarith
        · push_cast
          linarith
    · rw [abs_le]
      constructor
      · push_cast
        linarith
      · push_cast
        linarith
theorem roundTo2Sub_bound {a u v : ℚ} (hv : 0 ≤ v) :
    |((roundTo2Sub a u v : ℚ) : ℝ) - ((a : ℝ) - (u : ℝ) * Real.sqrt (v : ℝ))| ≤
      1/200 := by
  have h := roundHalfEvenSub_bound (a := 100 * a) (u := 100 * u) (v := v) hv
  unfold roundTo2Sub
  have hcast : (((roundHalfEvenSub (100 * a) (100 * u) v : ℚ) / 100 : ℚ) : ℝ) =
      ((roundHalfEvenSub (100 * a) (100 * u) v : ℤ) : ℝ) / 100 := by push_cast; ring
  rw [hcast]
  have hexp : ((roundHalfEvenSub (100 * a) (100 * u) v : ℤ) : ℝ) / 100 -
      ((a : ℝ) - (u : ℝ) * Real.sqrt (v : ℝ)) =
      (((roundHalfEvenSub (100 * a) (100 * u) v : ℤ) : ℝ) -
        (((100 * a : ℚ)) : ℝ) + ((100 * u : ℚ) : ℝ) * Real.sqrt (v : ℝ)) / 100 := by
    push_cast
    ring
  rw [hexp, abs_div]
  rw [show |(100 : ℝ)| = 100 by norm_num]
  rw [div_le_iff (by norm_num : (0:ℝ) < 100)]
  calc |((roundHalfEvenSub (100 * a) (100 * u) v : ℤ) : ℝ) -
        (((100 * a : ℚ)) : ℝ) + ((100 * u : ℚ) : ℝ) * Real.sqrt (v : ℝ)| =
      |((roundHalfEvenSub (100 * a) (100 * u) v : ℤ) : ℝ) -
        ((((100 * a : ℚ)) : ℝ) - ((100 * u : ℚ) : ℝ) * Real.sqrt (v : ℝ))| := by
        ring_nf
    _ ≤ 1/2 := h
    _ = 1/200 * 100 := by norm_num
/-- Helper: the sample variance of a list with more than one element is
nonnegative. -/
theorem sampleVariance_nonneg {l : List ℚ} (h : 1 < l.length) :
    0 ≤ sampleVariance l := by
  unfold sampleVariance
  dsimp only
  apply div_nonneg
  · apply List.sum_nonneg
    intro x hx
    rcases List.mem_map.mp hx with ⟨y, _, rfl⟩
    positivity
  · have : (1 : ℚ) < (l.length : ℚ) := by exact_mod_cast h
    linarith
/-- Helper: the symbolic variance component of `scoreParts` is nonnegative. -/
theorem scoreParts_v_nonneg (schedule : List Section) (weights : ScoringWeights)
    (penalties : List PenaltyHook) :
    0 ≤ (scoreParts schedule weights penalties).2.2 := by
  unfold scoreParts
  dsimp only
  split
  · rename_i h
    apply sampleVariance_nonneg
    exact (List.length_map _ _).symm ▸ h
  · exact le_refl 0
/-- C6: `evaluate_schedule` returns `float("-inf")` on the empty schedule;
on every non-empty schedule it returns a finite value that is an integer
number of hundredths and lies within half a hundredth of the real raw
score `a - u·√v` read off by `scoreParts` — i.e. the computed score
rounded to 2 decimal places. -/
theorem evaluate_schedule_neg_inf_and_rounded (weights : ScoringWeights)
    (penalties : List PenaltyHook) :
    evaluate_schedule [] weights penalties = PyFloat.negInf ∧
    ∀ schedule : List Section, schedule ≠ [] →
      ∃ n : Int,
        evaluate_schedule schedule weights penalties = PyFloat.fin ((n : ℚ) / 100) ∧
        |((n : ℤ) : ℝ) / 100 -
          ((((scoreParts schedule weights penalties).1 : ℚ) : ℝ) -
            (((scoreParts schedule weights penalties).2.1 : ℚ) : ℝ) *
              Real.sqrt ((((scoreParts schedule weights penalties).2.2 : ℚ)) : ℝ))| ≤
          1/200 := by
  constructor
  · rfl
  · intro schedule hs
    have hv : 0 ≤ (scoreParts schedule weights penalties).2.2 :=
      scoreParts_v_nonneg schedule weights penalties
    rcases hsp : scoreParts schedule weights penalties with ⟨a, u, v⟩
    rw [hsp] at hv
    refine ⟨roundHalfEvenSub (100 * a) (100 * u) v, ?_, ?_⟩
    · unfold evaluate_schedule
      rw [if_neg (by simpa [List.isEmpty_iff] using hs), hsp]
      rfl
    · have hb := roundTo2Sub_bound (a := a) (u := u) (v := v) hv
      have hcast : (((roundTo2Sub a u v : ℚ)) : ℝ) =
          ((roundHalfEvenSub (100 * a) (100 * u) v : ℤ) : ℝ) / 100 := by
        unfold roundTo2Sub
        push_cast
        ring
      rw [hcast] at hb
      exact hb
/-- Witness for C6: a one-section Wednesday 13:00–13:50 schedule gets a
finite score in hundredths within half a hundredth of its raw score. -/
theorem evaluate_schedule_neg_inf_and_rounded_witness :
    ∃ n : Int,
      evaluate_schedule [⟨[⟨2, 780, 830⟩], some ("CSCI1200"), "t", "42"⟩] {} [] =
        PyFloat.fin ((n : ℚ) / 100) ∧
      |((n : ℤ) : ℝ) / 100 -
        ((((scoreParts [⟨[⟨2, 780, 830⟩], some ("CSCI1200"), "t", "42"⟩] {} []).1 : ℚ) : ℝ) -
          (((scoreParts [⟨[⟨2, 780, 830⟩], some ("CSCI1200"), "t", "42"⟩] {} []).2.1 : ℚ) : ℝ) *
            Real.sqrt ((((scoreParts [⟨[⟨2, 780, 830⟩], some ("CSCI1200"), "t", "42"⟩] {} []).2.2 : ℚ)) : ℝ))| ≤
        1/200 :=
  (evaluate_schedule_neg_inf_and_rounded {} []).2
    [⟨[⟨2, 780, 830⟩], some ("CSCI1200"), "t", "42"⟩] (by simp)
/-- Helper: score comparison is reflexive. -/
theorem pyFloatLe_refl (a : PyFloat) : PyFloat.le a a = true := by
  cases a <;> simp [PyFloat.le]
/-- Helper: labelling preserves length. -/
theorem labelEntries_length (entries : List (List Section × PyFloat)) :
    (labelEntries entries).length = entries.length := by
  simp [labelEntries]
/-- Helper: the `i`-th output key is `"Schedule (i+1)"`. -/
theorem labelEntries_get (entries : List (List Section × PyFloat)) (i : Nat)
    (hi : i < (labelEntries entries).length) :
    ((labelEntries entries).get ⟨i, hi⟩).1 = "Schedule " ++ toString (i + 1) := by
  have hi' : i < entries.length := by
    rw [← labelEntries_length entries]
    exact hi
  simp [labelEntries, List.get_eq_getElem, List.getElem_map, List.getElem_enum]
/-- Helper: labelling preserves the score ordering along the list. -/
theorem labelEntries_pairwise {entries : List (List Section × PyFloat)}
    (h : entries.Pairwise schedGe) :
    (labelEntries entries).Pairwise fun x y =>
      PyFloat.le y.2.score x.2.score = true := by
  unfold labelEntries
  rw [List.pairwise_map]
  have henum : entries.enum.Pairwise fun a b => schedGe a.2 b.2 := by
    rw [← List.enum_map_snd entries] at h
    exact List.pairwise_map.mp h
  refine henum.imp ?_
  intro a b hab
  exact hab
/-- Helper: the stable sort leaves the equal-score entries exactly in
their original (encounter) order. -/
theorem insertionSort_filter_score_eq (scored : List (List Section × PyFloat))
    (q : PyFloat) :
    (scored.insertionSort schedGe).filter (fun e => decide (e.2 = q)) =
      scored.filter (fun e => decide (e.2 = q)) := by
  have hsub : List.Sublist (scored.filter (fun e => decide (e.2 = q))) scored :=
    List.filter_sublist scored
  have hpw : (scored.filter (fun e => decide (e.2 = q))).Pairwise schedGe := by
    apply List.pairwise_of_reflexive_of_forall_ne
    · intro x
      exact pyFloatLe_refl x.2
    · intro a ha b hb _
      have ha2 : a.2 = q := of_decide_eq_true (List.mem_filter.mp ha).2
      have hb2 : b.2 = q := of_decide_eq_true (List.mem_filter.mp hb).2
      unfold schedGe
      rw [ha2, hb2]
      exact pyFloatLe_refl q
  have hstable : List.Sublist (scored.filter (fun e => decide (e.2 = q)))
      (scored.insertionSort schedGe) :=
    List.sublist_insertionSort hpw hsub
  have hperm : ((scored.insertionSort schedGe).filter
      (fun e => decide (e.2 = q))).Perm (scored.filter (fun e => decide (e.2 = q))) :=
    (List.perm_insertionSort schedGe scored).filter _
  have hself : (scored.filter (fun e => decide (e.2 = q))).filter
      (fun e => decide (e.2 = q)) = scored.filter (fun e => decide (e.2 = q)) := by
    apply List.filter_eq_self.mpr
    intro a ha
    exact (List.mem_filter.mp ha).2
  have hsub2 : List.Sublist (scored.filter (fun e => decide (e.2 = q)))
      ((scored.insertionSort schedGe).filter (fun e => decide (e.2 = q))) := by
    rw [← hself]
    exact List.Sublist.filter _ hstable
  exact (List.Sublist.eq_of_length hsub2 (hperm.length_eq.symm)).symm
/-- C4: every successful `optimize_courses` output has at most
`max_schedules` entries, keys `"Schedule 1"`, `"Schedule 2"`, …
consecutively from 1, non-increasing scores along the output, and is
exactly the labelled truncation of the stable descending sort of the
scored candidates — in particular, for every score value the equal-score
entries stay in their input encounter order. -/
theorem optimize_output_sorted_truncated_labeled (courses_data : List RawSection)
    (options : Option OptimizationOptions)
    (requirements_spec : Option (List (String × List (List String))))
    (hass_subject : Option String) (max_schedules : Option Int)
    (scoring : Option ScoringWeights) (min_seats_available : Option Int)
    (include_subjects : Option (List String)) (exclude_subjects : Option (List String))
    (penalties : Option (List PenaltyHook)) (out : List (String × ScheduleOut))
    (hok : optimize_courses courses_data options requirements_spec hass_subject
      max_schedules scoring min_seats_available include_subjects exclude_subjects
      penalties = .ok out) :
    ((out.length : Int) ≤ (_resolve_options options requirements_spec hass_subject
      max_schedules scoring min_seats_available include_subjects exclude_subjects
      penalties).max_schedules) ∧
    (∀ i : Nat, ∀ hi : i < out.length,
      (out.get ⟨i, hi⟩).1 = "Schedule " ++ toString (i + 1)) ∧
    (out.Pairwise fun x y => PyFloat.le y.2.score x.2.score = true) ∧
    (out = [] ∨
      ∃ scored : List (List Section × PyFloat),
        scoredSchedules courses_data (_resolve_options options requirements_spec
          hass_subject max_schedules scoring min_seats_available include_subjects
          exclude_subjects penalties) = some scored ∧
        out = labelEntries ((scored.insertionSort schedGe).take
          (_resolve_options options requirements_spec hass_subject max_schedules
            scoring min_seats_available include_subjects exclude_subjects
            penalties).max_schedules.toNat) ∧
        (scored.insertionSort schedGe).Perm scored ∧
        (∀ q : PyFloat,
          (scored.insertionSort schedGe).filter (fun e => decide (e.2 = q)) =
            scored.filter (fun e => decide (e.2 = q)))) := by
  unfold optimize_courses at hok
  dsimp only at hok
  set opts := _resolve_options options requirements_spec hass_subject max_schedules
    scoring min_seats_available include_subjects exclude_subjects penalties with hopts
  by_cases hmax : opts.max_schedules ≤ 0
  · rw [if_pos hmax] at hok
    cases hok
  · rw [if_neg hmax] at hok
    rcases hvs : validSchedules courses_data opts with _ | valid
    · rw [hvs] at hok
      dsimp only at hok
      injection hok with h
      rcases h.symm with rfl
      refine ⟨by simpa using le_of_not_le hmax, ?_, List.Pairwise.nil, Or.inl rfl⟩
      intro i hi
      simp at hi
    · rw [hvs] at hok
      dsimp only at hok
      by_cases hemp : valid.isEmpty
      · rw [if_pos hemp] at hok
        injection hok with h
        rcases h.symm with rfl
        refine ⟨by simpa using le_of_not_le hmax, ?_, List.Pairwise.nil, Or.inl rfl⟩
        intro i hi
        simp at hi
      · rw [if_neg hemp] at hok
        injection hok with h
        rcases h.symm with rfl
        set scored := valid.map fun s =>
          (s, evaluate_schedule s opts.scoring opts.penalties) with hscored
        have hsps : scoredSchedules courses_data opts = some scored := by
          unfold scoredSchedules
          rw [hvs]
          rfl
        have hsorted : (scored.insertionSort schedGe).Pairwise schedGe :=
          List.sorted_insertionSort schedGe scored
        have htakepw : ((scored.insertionSort schedGe).take
            opts.max_schedules.toNat).Pairwise schedGe :=
          hsorted.sublist (List.take_sublist _ _)
        refine ⟨?_, ?_, ?_, Or.inr ⟨scored, hsps, rfl, List.perm_insertionSort _ _,
          fun q => insertionSort_filter_score_eq scored q⟩⟩
        · rw [labelEntries_length, List.length_take]
          have h1 : min opts.max_schedules.toNat
              (scored.insertionSort schedGe).length ≤ opts.max_schedules.toNat :=
            Nat.min_le_left _ _
          omega
        · intro i hi
          exact labelEntries_get _ i hi
        · exact labelEntries_pairwise htakepw
/-- Witness for C4: on a one-record catalog the output respects the size
bound and is ordered by non-increasing score. -/
theorem optimize_output_sorted_truncated_labeled_witness :
    ((wOut.length : Int) ≤ (_resolve_options (some wOptions) none none none none
      none none none none).max_schedules) ∧
    (wOut.Pairwise fun x y => PyFloat.le y.2.score x.2.score = true) :=
  have h := optimize_output_sorted_truncated_labeled [wHassRecord] (some wOptions)
    none none none none none none none none wOut (by with_unfolding_all rfl)
  ⟨h.1, h.2.2.1⟩
